import Mathlib

/-!
# Verification of the colonize core (chunk codec and replay subsystem)

This file gives a shallow embedding, in Lean, of the two core components of
the colonize prototype (src/main.rs): the chunk codec that compresses a
32x32x32 voxel field into a `Chunk`, and the input recording / playback
subsystem together with its fixed-size binary input encoding.

Conventions of the embedding:
* Rust machine integers are modelled as `Nat` (or `Int` for `i32`), with an
  explicit `% 2 ^ w` at the places where the source performs a narrowing
  cast (`as u16`).
* A Rust function that can panic (out-of-bounds indexing, `unwrap`,
  deserialization failure) is modelled as returning `Option`, with `none`
  for the panic.
* A Rust function returning `Result<T, io::Error>` is modelled as returning
  `Except IoErrorKind T` (wrapped in `Option` when it can also panic).
* Fixed-size Rust arrays indexed only at statically in-bounds positions
  (`[Voxel; VOXEL_BOX_SIZE]`) are modelled as total functions from `Nat`;
  growable vectors and arrays read through fallible indexing are modelled as
  `List` with `Option`-returning access.
-/

namespace Colonize

/-! ## Constants (src/main.rs) -/

/-- Size of a row of voxels, as measured in voxels per dimension of the
chunk (`VOXEL_ROW_SIZE`). -/
def VOXEL_ROW_SIZE : Nat := 32

/-- Number of rows of voxels located in a single chunk (`VOXEL_ROW_COUNT`). -/
def VOXEL_ROW_COUNT : Nat := VOXEL_ROW_SIZE * VOXEL_ROW_SIZE

/-- Size of a box of voxels (`VOXEL_BOX_SIZE`). -/
def VOXEL_BOX_SIZE : Nat := VOXEL_ROW_SIZE * VOXEL_ROW_SIZE * VOXEL_ROW_SIZE

/-- Mask for determining if a row is allocated (`ROW_TAG_ALLOCATED`,
`0b1000_0000_0000_0000`). -/
def ROW_TAG_ALLOCATED : Nat := 32768

/-- Mask for retrieving just the tag data from a voxel data row offset
(`ROW_TAG_MASK`, `0b0111_1111_1111_1111`). -/
def ROW_TAG_MASK : Nat := 32767

/-- Material code of air (`M_AIR`). -/
def M_AIR : Nat := 0

/-- Material code of stone (`M_STONE`). -/
def M_STONE : Nat := 1

/-- The number of different materials available (`M_COUNT`). -/
def M_COUNT : Nat := 2

/-- The number of controllers monitored by the game (`CONTROLLER_COUNT`). -/
def CONTROLLER_COUNT : Nat := 1

/-- Size of a bincode serialized representation of the `GameInput` struct,
in bytes (`BINCODED_GAME_INPUT_SIZE`). -/
def BINCODED_GAME_INPUT_SIZE : Nat := 44

/-! ## Voxels and chunk primers -/

/-- A voxel: `struct Voxel { material: u8 }`. The material code is a `u8`
in the source; it is modelled as a `Nat`, bounded by `2 ^ 8` wherever the
byte encoding is involved. -/
structure Voxel where
  material : Nat
deriving DecidableEq, Repr

/-- The global read-only array `VOXEL_ROWS`: one pre-filled row of
`VOXEL_ROW_SIZE` identical voxels for each of the `M_COUNT` materials.
Indexing it out of bounds panics in the source, hence the `Option`. -/
def VOXEL_ROWS (material : Nat) : Option (List Voxel) :=
  if material < M_COUNT then some (List.replicate VOXEL_ROW_SIZE ⟨material⟩) else none

/-- A chunk primer: `struct ChunkPrimer { data: [Voxel; VOXEL_BOX_SIZE] }`.
The fixed-size array is modelled as a total function; the source only ever
reads it at indices below `VOXEL_BOX_SIZE`. -/
structure ChunkPrimer where
  data : Nat → Voxel

/-- Index of voxel `(x, y, z)` in the primer data: `z << 10 | y << 5 | x`. -/
def ChunkPrimer.get_index (x y z : Nat) : Nat :=
  z <<< 10 ||| y <<< 5 ||| x

/-- The row of a chunk primer at `(y, z)`: the slice
`&self.data[idx..idx + VOXEL_ROW_SIZE]` with `idx = get_index(0, y, z)`,
read out element by element. -/
def ChunkPrimer.get_row (p : ChunkPrimer) (y z : Nat) : List Voxel :=
  (List.range VOXEL_ROW_SIZE).map fun x => p.data (ChunkPrimer.get_index 0 y z + x)

/-! ## Chunks -/

/-- A chunk: `struct Chunk { rows: [u16; VOXEL_ROW_COUNT], row_data: Vec<Voxel> }`.
The `rows` array is modelled as a list of `VOXEL_ROW_COUNT` naturals
(each a `u16` value); `row_data` as a list of voxels. -/
structure Chunk where
  rows : List Nat
  row_data : List Voxel
deriving DecidableEq, Repr

/-- The loop body state of `Chunk::from_chunk_primer`, iterated over the
row coordinates in source order (outer `z`, inner `y`): `rows` entries
produced so far and the accumulated `row_data`.  For each row the source
reads `row[0].material` (panic on an empty row), indexes `VOXEL_ROWS` with
it (panic when the material has no template), and then either records the
material as a packed entry or appends the row to `row_data` recording
`row_data.len() as u16 | ROW_TAG_ALLOCATED`. -/
def encodeRows (p : ChunkPrimer) :
    List (Nat × Nat) → List Nat → List Voxel → Option (List Nat × List Voxel)
  | [], rows, row_data => some (rows, row_data)
  | (z, y) :: rest, rows, row_data =>
    let row := p.get_row y z
    match row.head? with
    | none => none
    | some v0 =>
      match VOXEL_ROWS v0.material with
      | none => none
      | some template =>
        if row = template then
          encodeRows p rest (rows ++ [v0.material]) row_data
        else
          encodeRows p rest (rows ++ [row_data.length % 65536 ||| ROW_TAG_ALLOCATED])
            (row_data ++ row)

/-- The source iteration order of `from_chunk_primer`: `(z, y)` pairs with
the outer loop over `z` and the inner loop over `y`; the pair `(z, y)` is
stored at row index `z * VOXEL_ROW_SIZE + y`, so iteration order coincides
with row-index order. -/
def rowIndices : List (Nat × Nat) :=
  (List.range VOXEL_ROW_SIZE).flatMap fun z => (List.range VOXEL_ROW_SIZE).map fun y => (z, y)

/-- `Chunk::from_chunk_primer`: encode a voxel field into a chunk. Returns
`none` when the source would panic (a row whose first material has no
uniform-row template). -/
def Chunk.from_chunk_primer (p : ChunkPrimer) : Option Chunk :=
  match encodeRows p rowIndices [] [] with
  | none => none
  | some (rows, row_data) => some ⟨rows, row_data⟩

/-- `Chunk::read_row`: read back the row at `(y, z)`. Returns `none` where
the source panics: row index out of bounds, allocated slice
`row_data[offset..offset + VOXEL_ROW_SIZE - 1]` out of bounds, or a packed
material with no template. Note the source reads `VOXEL_ROW_SIZE - 1`
voxels for an allocated row. -/
def Chunk.read_row (c : Chunk) (y z : Nat) : Option (List Voxel) :=
  match c.rows.get? (z * VOXEL_ROW_SIZE + y) with
  | none => none
  | some row =>
    let offset := row &&& ROW_TAG_MASK
    if row &&& ROW_TAG_ALLOCATED ≠ 0 then
      if offset + (VOXEL_ROW_SIZE - 1) ≤ c.row_data.length then
        some ((c.row_data.drop offset).take (VOXEL_ROW_SIZE - 1))
      else none
    else
      VOXEL_ROWS offset

/-- A read of a row through a shared borrow, as a state-passing operation:
the result of the read together with the chunk as it is after the read.
`read_row` takes `&self`, so the chunk after the read is the chunk itself. -/
def Chunk.read_row_op (c : Chunk) (y z : Nat) : Option (List Voxel) × Chunk :=
  (c.read_row y z, c)

/-! ## Specification helpers for the encoder -/

/-- The first voxel of the row at `(y, z)` (`row[0]`). -/
def rowFirst (p : ChunkPrimer) (y z : Nat) : Voxel :=
  p.data (ChunkPrimer.get_index 0 y z)

/-- Whether the encoder packs the row at `(y, z)`: its first material has a
uniform-row template and the row equals that template. -/
def row_is_packed (p : ChunkPrimer) (y z : Nat) : Bool :=
  match VOXEL_ROWS (rowFirst p y z).material with
  | none => false
  | some template => decide (p.get_row y z = template)

/-- Whether the encoder loop can process the row at `(y, z)` without
panicking: the first material has a uniform-row template. -/
def rowOk (p : ChunkPrimer) (y z : Nat) : Bool :=
  decide ((rowFirst p y z).material < M_COUNT)

/-- The `rows` entry the encoder records for one row, given the length of
`row_data` at the time the row is processed. -/
def specEntry (p : ChunkPrimer) (len : Nat) (zy : Nat × Nat) : Nat :=
  if row_is_packed p zy.2 zy.1 then (rowFirst p zy.2 zy.1).material
  else len % 65536 ||| ROW_TAG_ALLOCATED

/-- The `rows` entries the encoder records for a list of row coordinates,
starting from a given `row_data` length. -/
def specEntries (p : ChunkPrimer) : List (Nat × Nat) → Nat → List Nat
  | [], _ => []
  | zy :: rest, len =>
    specEntry p len zy ::
      specEntries p rest (if row_is_packed p zy.2 zy.1 then len else len + VOXEL_ROW_SIZE)

/-- The `row_data` contents the encoder appends for a list of row
coordinates: the concatenation of the non-packed rows in order. -/
def specData (p : ChunkPrimer) (L : List (Nat × Nat)) : List Voxel :=
  (L.filter fun zy => !row_is_packed p zy.2 zy.1).flatMap fun zy => p.get_row zy.2 zy.1

/-- Number of non-packed rows among a list of row coordinates. -/
def allocCount (p : ChunkPrimer) (L : List (Nat × Nat)) : Nat :=
  (L.filter fun zy => !row_is_packed p zy.2 zy.1).length

/-- Number of non-packed rows strictly before row index `i` in the source
iteration order; `VOXEL_ROW_SIZE` times this is the value of
`row_data.len()` at the time row `i` is appended. -/
def allocBefore (p : ChunkPrimer) (i : Nat) : Nat :=
  allocCount p (rowIndices.take i)

/-- Number of non-uniform (hence non-packed) rows of the whole field. -/
def nonUniformCount (p : ChunkPrimer) : Nat :=
  allocCount p rowIndices

/-! ## Concrete fields used as witnesses -/

/-- The all-air voxel field. -/
def airPrimer : ChunkPrimer :=
  ⟨fun _ => ⟨M_AIR⟩⟩

/-- The voxel field of the specification scenario: all air except voxel
`(x = 5, y = 2, z = 0)` (primer index 69), which is stone. Its row
`(y = 2, z = 0)` is the only non-uniform row. -/
def scenarioPrimer : ChunkPrimer :=
  ⟨fun i => if i = 69 then ⟨M_STONE⟩ else ⟨M_AIR⟩⟩

/-- The row of the scenario field at `(y = 2, z = 0)`: air everywhere
except stone at `x = 5`. -/
def scenarioRow : List Voxel :=
  (List.range VOXEL_ROW_SIZE).map fun x => if x = 5 then ⟨M_STONE⟩ else ⟨M_AIR⟩

/-- The chunk the encoder produces from the all-air field. -/
def airChunk : Chunk :=
  ⟨specEntries airPrimer rowIndices 0, specData airPrimer rowIndices⟩

/-- The chunk the encoder produces from the scenario field. -/
def scenarioChunk : Chunk :=
  ⟨specEntries scenarioPrimer rowIndices 0, specData scenarioPrimer rowIndices⟩

/-! ## The bincode binary encoding

Modelled from the spec: the `bincode` crate is external to the repository,
so its byte format is modelled here from the specification of the persisted
state layout (fixed-size little-endian integer fields, `u64` length prefix
for sequences, one byte per `bool` and per `u8`), which the hard-coded
record size of 44 bytes in the source corroborates. Bytes are naturals
below 256. -/

/-- Little-endian fixed-width encoding of a natural into `w` bytes. -/
def encLE (w n : Nat) : List Nat :=
  (List.range w).map fun i => n / 256 ^ i % 256

/-- Value of a little-endian byte sequence. -/
def leVal (bs : List Nat) : Nat :=
  bs.foldr (fun byte acc => acc * 256 + byte) 0

/-- Take exactly `n` bytes from the front of a stream, or fail. -/
def takeBytes : Nat → List Nat → Option (List Nat × List Nat)
  | 0, b => some ([], b)
  | _ + 1, [] => none
  | n + 1, x :: xs => (takeBytes n xs).map fun p => (x :: p.1, p.2)

/-- Parse a `w`-byte little-endian unsigned integer. -/
def parseLE (w : Nat) (b : List Nat) : Option (Nat × List Nat) :=
  (takeBytes w b).map fun p => (leVal p.1, p.2)

/-- Parse `n` consecutive values with a given element parser. -/
def parseN {α : Type} (p : List Nat → Option (α × List Nat)) :
    Nat → List Nat → Option (List α × List Nat)
  | 0, b => some ([], b)
  | n + 1, b =>
    match p b with
    | none => none
    | some (a, r) =>
      match parseN p n r with
      | none => none
      | some (as, r2) => some (a :: as, r2)

/-- Encoding of a `bool`: one byte, 0 or 1. -/
def encBool (b : Bool) : List Nat :=
  [if b then 1 else 0]

/-- Parse a `bool`; any byte other than 0 or 1 is a decode error. -/
def parseBool (b : List Nat) : Option (Bool × List Nat) :=
  match b with
  | [] => none
  | x :: r => if x = 0 then some (false, r) else if x = 1 then some (true, r) else none

/-- Parse an `i32` from four little-endian bytes (two's complement). -/
def parseI32 (b : List Nat) : Option (Int × List Nat) :=
  (parseLE 4 b).map fun p =>
    (if p.1 < 2 ^ 31 then (p.1 : Int) else (p.1 : Int) - 2 ^ 32, p.2)

/-- Encoding of an `i32`: four little-endian bytes of its two's-complement
bit pattern. -/
def encI32 (x : Int) : List Nat :=
  encLE 4 (x % (2 ^ 32 : Int)).toNat

/-! ## The input model -/

/-- Per-button input state:
`struct GameButtonState { ended_down: bool, half_transition_count: usize }`. -/
structure GameButtonState where
  ended_down : Bool
  half_transition_count : Nat
deriving DecidableEq, Repr

/-- The `Default` impl for `GameButtonState`. -/
def defaultGameButtonState : GameButtonState :=
  ⟨false, 0⟩

/-- Per-controller input:
`struct ControllerInput { move_up, move_down, move_left, move_right: GameButtonState }`. -/
structure ControllerInput where
  move_up : GameButtonState
  move_down : GameButtonState
  move_left : GameButtonState
  move_right : GameButtonState
deriving DecidableEq, Repr

/-- The `Default` impl for `ControllerInput`. -/
def defaultControllerInput : ControllerInput :=
  ⟨defaultGameButtonState, defaultGameButtonState, defaultGameButtonState, defaultGameButtonState⟩

/-- Per-frame input: `struct GameInput { controllers: Vec<ControllerInput> }`. -/
structure GameInput where
  controllers : List ControllerInput
deriving DecidableEq, Repr

/-- `GameInput::new(controller_count)`: a vector of default controllers. -/
def GameInput.new (controller_count : Nat) : GameInput :=
  ⟨List.replicate controller_count defaultControllerInput⟩

/-- Well-formedness of a button state as a Rust value: the transition count
fits in a `usize` (64 bits). -/
@[reducible] def GameButtonState.wf (b : GameButtonState) : Prop :=
  b.half_transition_count < 2 ^ 64

/-- Well-formedness of a controller input as a Rust value. -/
@[reducible] def ControllerInput.wf (c : ControllerInput) : Prop :=
  c.move_up.wf ∧ c.move_down.wf ∧ c.move_left.wf ∧ c.move_right.wf

/-- Well-formedness of a game input: the canonical controller count, and
every field a representable Rust value. -/
@[reducible] def GameInput.wf (g : GameInput) : Prop :=
  g.controllers.length = CONTROLLER_COUNT ∧ ∀ c ∈ g.controllers, c.wf

/-- Bincode encoding of a `GameButtonState`: the `bool` byte followed by
the `usize` as a little-endian `u64`. -/
def encGameButtonState (b : GameButtonState) : List Nat :=
  encBool b.ended_down ++ encLE 8 b.half_transition_count

/-- Bincode encoding of a `ControllerInput`: its four button states in
declaration order. -/
def encControllerInput (c : ControllerInput) : List Nat :=
  encGameButtonState c.move_up ++ encGameButtonState c.move_down ++
    encGameButtonState c.move_left ++ encGameButtonState c.move_right

/-- Bincode encoding of a `GameInput`: the vector length as a `u64`
followed by the encodings of the controllers. -/
def serializeGameInput (g : GameInput) : List Nat :=
  encLE 8 g.controllers.length ++ (g.controllers.map encControllerInput).flatten

/-- Parse a `GameButtonState`. -/
def parseGameButtonState (b : List Nat) : Option (GameButtonState × List Nat) :=
  match parseBool b with
  | none => none
  | some (e, r) =>
    match parseLE 8 r with
    | none => none
    | some (n, r2) => some (⟨e, n⟩, r2)

/-- Parse a `ControllerInput`. -/
def parseControllerInput (b : List Nat) : Option (ControllerInput × List Nat) :=
  match parseGameButtonState b with
  | none => none
  | some (u, r1) =>
    match parseGameButtonState r1 with
    | none => none
    | some (d, r2) =>
      match parseGameButtonState r2 with
      | none => none
      | some (l, r3) =>
        match parseGameButtonState r3 with
        | none => none
        | some (ri, r4) => some (⟨u, d, l, ri⟩, r4)

/-- Parse a `GameInput`: a `u64` length followed by that many controllers. -/
def parseGameInput (b : List Nat) : Option (GameInput × List Nat) :=
  match parseLE 8 b with
  | none => none
  | some (n, r) =>
    match parseN parseControllerInput n r with
    | none => none
    | some (cs, r2) => some (⟨cs⟩, r2)

/-- Bincode deserialization of a `GameInput` from a buffer (trailing bytes
are ignored, as by `bincode::deserialize`); `none` is a decode error. -/
def deserializeGameInput (b : List Nat) : Option GameInput :=
  (parseGameInput b).map fun p => p.1

/-! ## The game state and its snapshot encoding -/

/-- The game state: `struct Game { chunk: Chunk, x_offset: i32, y_offset: i32 }`. -/
structure Game where
  chunk : Chunk
  x_offset : Int
  y_offset : Int
deriving DecidableEq, Repr

/-- Well-formedness of a chunk as a Rust value: the `rows` array has its
fixed length and holds `u16` values, `row_data` holds `u8` materials and
has a `usize` length. -/
@[reducible] def Chunk.wf (c : Chunk) : Prop :=
  c.rows.length = VOXEL_ROW_COUNT ∧ (∀ r ∈ c.rows, r < 2 ^ 16) ∧
    (∀ v ∈ c.row_data, v.material < 2 ^ 8) ∧ c.row_data.length < 2 ^ 64

/-- Well-formedness of a game state as a Rust value: a well-formed chunk
and `i32` camera offsets. -/
@[reducible] def Game.wf (g : Game) : Prop :=
  g.chunk.wf ∧ -2 ^ 31 ≤ g.x_offset ∧ g.x_offset < 2 ^ 31 ∧
    -2 ^ 31 ≤ g.y_offset ∧ g.y_offset < 2 ^ 31

/-- Bincode encoding of a `Chunk`: the `rows` array as a length-prefixed
sequence of `u16` (through the `serde_array` adapter), then `row_data` as a
length-prefixed sequence of voxels (one `u8` each). -/
def serializeChunk (c : Chunk) : List Nat :=
  encLE 8 c.rows.length ++ (c.rows.map (encLE 2)).flatten ++
    encLE 8 c.row_data.length ++ (c.row_data.map fun v => encLE 1 v.material).flatten

/-- Bincode encoding of a `Game`: the chunk followed by the two `i32`
camera offsets. -/
def serializeGame (g : Game) : List Nat :=
  serializeChunk g.chunk ++ encI32 g.x_offset ++ encI32 g.y_offset

/-- Parse a voxel (one `u8`). -/
def parseVoxel (b : List Nat) : Option (Voxel × List Nat) :=
  (parseLE 1 b).map fun p => (⟨p.1⟩, p.2)

/-- Parse the `rows` array of a chunk through the `serde_array` adapter:
read a length-prefixed sequence of `u16`, then reject any length other
than `VOXEL_ROW_COUNT` (the adapter errors on a wrong slice length). -/
def parseRows (b : List Nat) : Option (List Nat × List Nat) :=
  match parseLE 8 b with
  | none => none
  | some (n, r) =>
    match parseN (parseLE 2) n r with
    | none => none
    | some (vals, r2) => if vals.length = VOXEL_ROW_COUNT then some (vals, r2) else none

/-- Parse a `Chunk`. -/
def parseChunk (b : List Nat) : Option (Chunk × List Nat) :=
  match parseRows b with
  | none => none
  | some (rows, r) =>
    match parseLE 8 r with
    | none => none
    | some (m, r2) =>
      match parseN parseVoxel m r2 with
      | none => none
      | some (row_data, r3) => some (⟨rows, row_data⟩, r3)

/-- Parse a `Game`. -/
def parseGame (b : List Nat) : Option (Game × List Nat) :=
  match parseChunk b with
  | none => none
  | some (c, r) =>
    match parseI32 r with
    | none => none
    | some (x, r2) =>
      match parseI32 r2 with
      | none => none
      | some (y, r3) => some (⟨c, x, y⟩, r3)

/-- Bincode deserialization of a `Game` from a snapshot buffer; `none` is a
decode error. -/
def deserializeGame (b : List Nat) : Option Game :=
  (parseGame b).map fun p => p.1

/-! ## The replay subsystem

The two files the subsystem touches (the input recording and the game
state snapshot) are modelled as optional byte lists, `none` meaning the
file does not exist. `File::create` is modelled as always succeeding and
truncating; `File::open` fails with `notFound` when the file is absent; a
read handle is its current position; writes append. An operation returning
`none` models a panic (a missing handle `unwrap` or a failed
deserialization); `Except.error` models a returned `Err`. -/

/-- The kinds of I/O error distinguished by the source. -/
inductive IoErrorKind where
  | notFound : IoErrorKind
  | unexpectedEof : IoErrorKind
deriving DecidableEq, Repr

/-- The on-disk environment: contents of `recording.ci` and `state.sav`. -/
structure ReplayEnv where
  recording : Option (List Nat)
  snapshot : Option (List Nat)
deriving DecidableEq, Repr

/-- The driver state `struct State`, without the SDL rendering handles:
the game, the recording file handle and slot index, the playback file
handle (its read position) and slot index. -/
structure MState where
  game : Game
  recording_file : Option Unit
  input_recording_index : Option Nat
  playback_file : Option Nat
  input_playback_index : Option Nat
deriving DecidableEq, Repr

/-- `begin_recording_input`: store the slot index, truncate-create the
recording file, truncate-create the snapshot and serialize the current
game state into it. `File::create` is modelled as always succeeding, so
the `Result` is always `Ok`. -/
def begin_recording_input (env : ReplayEnv) (s : MState) (idx : Nat) : ReplayEnv × MState :=
  let s1 := { s with input_recording_index := some idx }
  let env1 := { env with recording := some [] }
  let s2 := { s1 with recording_file := some () }
  let env2 := { env1 with snapshot := some (serializeGame s2.game) }
  (env2, s2)

/-- `end_recording_input`: drop the recording handle and slot index. -/
def end_recording_input (s : MState) : MState :=
  { s with recording_file := none, input_recording_index := none }

/-- `begin_input_playback`: store the slot index, open the recording for
reading from the start, read the whole snapshot and deserialize it into
the live game state. `File::open` on a missing file returns `Err`; a
snapshot that does not decode panics (`none`). -/
def begin_input_playback (env : ReplayEnv) (s : MState) (idx : Nat) :
    Option (Except IoErrorKind MState) :=
  let s1 := { s with input_playback_index := some idx }
  match env.recording with
  | none => some (.error .notFound)
  | some _ =>
    let s2 := { s1 with playback_file := some 0 }
    match env.snapshot with
    | none => some (.error .notFound)
    | some buf =>
      match deserializeGame buf with
      | none => none
      | some g => some (.ok { s2 with game := g })

/-- `end_input_playback`: drop the playback handle and slot index. -/
def end_input_playback (s : MState) : MState :=
  { s with playback_file := none, input_playback_index := none }

/-- `record_input`: append the serialized input to the recording file. A
missing handle panics (`none`); `write_all` is modelled as succeeding. -/
def record_input (env : ReplayEnv) (s : MState) (new_input : GameInput) :
    Option ReplayEnv :=
  match s.recording_file with
  | none => none
  | some _ =>
    match env.recording with
    | none => none
    | some data => some { env with recording := some (data ++ serializeGameInput new_input) }

/-- `playback_input`: read exactly `BINCODED_GAME_INPUT_SIZE` bytes at the
handle position and deserialize them over the caller input. When fewer
bytes remain (`read_exact` fails with `UnexpectedEof`), close and reopen
the playback stream through `end_input_playback` and
`begin_input_playback` and return `Ok` with the caller input unchanged.
A missing handle or playback index panics (`none`). -/
def playback_input (env : ReplayEnv) (s : MState) (new_input : GameInput) :
    Option (Except IoErrorKind (MState × GameInput)) :=
  match s.playback_file with
  | none => none
  | some pos =>
    match env.recording with
    | none => none
    | some data =>
      if pos + BINCODED_GAME_INPUT_SIZE ≤ data.length then
        let buf := (data.drop pos).take BINCODED_GAME_INPUT_SIZE
        let s1 := { s with playback_file := some (pos + BINCODED_GAME_INPUT_SIZE) }
        match deserializeGameInput buf with
        | none => none
        | some g => some (.ok (s1, g))
      else
        match s.input_playback_index with
        | none => none
        | some idx =>
          let s1 := end_input_playback s
          match begin_input_playback env s1 idx with
          | none => none
          | some (.error e) => some (.error e)
          | some (.ok s2) => some (.ok (s2, new_input))

/-- Record a list of inputs in order with `record_input`. -/
def record_inputs (env : ReplayEnv) (s : MState) : List GameInput → Option ReplayEnv
  | [] => some env
  | i :: rest =>
    match record_input env s i with
    | none => none
    | some env1 => record_inputs env1 s rest

/-- Perform `n` playback reads with `playback_input`, feeding each frame
the previous frame's input value, and collect the inputs produced. -/
def playback_inputs (env : ReplayEnv) :
    Nat → MState → GameInput → Option (Except IoErrorKind (MState × List GameInput))
  | 0, s, _ => some (.ok (s, []))
  | n + 1, s, inp =>
    match playback_input env s inp with
    | none => none
    | some (.error e) => some (.error e)
    | some (.ok (s1, inp1)) =>
      match playback_inputs env n s1 inp1 with
      | none => none
      | some (.error e) => some (.error e)
      | some (.ok (s2, outs)) => some (.ok (s2, inp1 :: outs))

/-! ## Concrete replay values used as witnesses -/

/-- A trivial well-formed game state: an all-packed chunk and zero camera
offsets. -/
def defaultGame : Game :=
  ⟨⟨List.replicate VOXEL_ROW_COUNT 0, []⟩, 0, 0⟩

/-- An environment with neither file present. -/
def emptyEnv : ReplayEnv :=
  ⟨none, none⟩

/-- An idle driver state over the trivial game. -/
def idleState : MState :=
  ⟨defaultGame, none, none, none, none⟩

/-- A button held down with a nonzero transition count. -/
def pressedButton : GameButtonState :=
  ⟨true, 3⟩

/-- A boundary game input: every button down with nonzero transition
counts. -/
def pressedInput : GameInput :=
  ⟨[⟨pressedButton, pressedButton, pressedButton, pressedButton⟩]⟩

/-! ## Bit arithmetic helpers -/

/-- Bits of a product by a power of two. -/
theorem testBit_two_pow_mul (a k i : Nat) :
    Nat.testBit (2 ^ k * a) i = if i < k then false else Nat.testBit a (i - k) := by
  have h := Nat.testBit_mul_pow_two_add a (Nat.two_pow_pos k) i
  rw [Nat.add_zero] at h
  rw [h]
  split
  · exact Nat.zero_testBit i
  · rfl

/-- Bitwise or of values with disjoint bit ranges is addition. -/
theorem two_pow_mul_lor_eq_add (a b k : Nat) (hb : b < 2 ^ k) :
    2 ^ k * a ||| b = 2 ^ k * a + b := by
  apply Nat.eq_of_testBit_eq
  intro i
  rw [Nat.testBit_lor, Nat.testBit_mul_pow_two_add a hb i, testBit_two_pow_mul]
  by_cases h : i < k
  · simp [h]
  · have hbf : Nat.testBit b i = false :=
      Nat.testBit_eq_false_of_lt
        (lt_of_lt_of_le hb (Nat.pow_le_pow_right (by omega) (le_of_not_lt h)))
    simp [h, hbf]

/-- Tagging an offset below `2 ^ 15` just adds the tag bit. -/
theorem lor_tag_eq_add (off : Nat) (h : off < 32768) :
    off ||| ROW_TAG_ALLOCATED = off + 32768 := by
  rw [Nat.lor_comm]
  have h2 := two_pow_mul_lor_eq_add 1 off 15 (by norm_num; omega)
  norm_num at h2
  rw [ROW_TAG_ALLOCATED, h2]
  omega

/-- Masking with `ROW_TAG_MASK` takes the value modulo `2 ^ 15`. -/
theorem land_mask_eq_mod (n : Nat) : n &&& ROW_TAG_MASK = n % 32768 := by
  have hm : ROW_TAG_MASK = 2 ^ 15 - 1 := by norm_num [ROW_TAG_MASK]
  have hp : (32768 : Nat) = 2 ^ 15 := by norm_num
  rw [hm, hp]
  apply Nat.eq_of_testBit_eq
  intro i
  rw [Nat.testBit_land, Nat.testBit_mod_two_pow, Nat.testBit_two_pow_sub_one,
    Bool.and_comm]

/-- Masking with the tag bit extracts bit 15. -/
theorem land_tag_eq (n : Nat) :
    n &&& ROW_TAG_ALLOCATED = (Nat.testBit n 15).toNat * 32768 := by
  have hp : ROW_TAG_ALLOCATED = 2 ^ 15 := by norm_num [ROW_TAG_ALLOCATED]
  rw [hp, Nat.and_two_pow]
  norm_num

/-- A value below the tag bit has the tag clear. -/
theorem land_tag_of_lt {n : Nat} (h : n < 32768) : n &&& ROW_TAG_ALLOCATED = 0 := by
  rw [land_tag_eq]
  have : Nat.testBit n 15 = false := Nat.testBit_eq_false_of_lt (by norm_num; omega)
  simp [this]

/-- A tagged offset has the tag set. -/
theorem land_tag_of_tagged {off : Nat} (h : off < 32768) :
    (off ||| ROW_TAG_ALLOCATED) &&& ROW_TAG_ALLOCATED ≠ 0 := by
  rw [lor_tag_eq_add off h, land_tag_eq]
  have h15 : (32768 : Nat) = 2 ^ 15 * 1 := by norm_num
  have : Nat.testBit (off + 32768) 15 = true := by
    have ht := Nat.testBit_mul_pow_two_add 1 (show off < 2 ^ 15 by norm_num; omega) 15
    norm_num at ht
    rw [Nat.add_comm] at ht
    exact ht
  simp [this]

/-- Masking a tagged offset below `2 ^ 15` recovers the offset. -/
theorem mask_of_tagged {off : Nat} (h : off < 32768) :
    (off ||| ROW_TAG_ALLOCATED) &&& ROW_TAG_MASK = off := by
  rw [lor_tag_eq_add off h, land_mask_eq_mod]
  omega

/-- The voxel index of `(x, y, z)` in arithmetic form. -/
theorem get_index_eq (x y z : Nat) (hx : x < 32) (hy : y < 32) :
    ChunkPrimer.get_index x y z = z * 1024 + y * 32 + x := by
  unfold ChunkPrimer.get_index
  rw [Nat.shiftLeft_eq, Nat.shiftLeft_eq]
  have h1 : z * 2 ^ 10 ||| y * 2 ^ 5 = 2 ^ 5 * (2 ^ 5 * z + y) := by
    rw [Nat.mul_comm z (2 ^ 10)]
    rw [two_pow_mul_lor_eq_add z (y * 2 ^ 5) 10 (by norm_num; omega)]
    ring
  rw [h1, two_pow_mul_lor_eq_add (2 ^ 5 * z + y) x 5 (by norm_num; omega)]
  norm_num
  omega

/-! ## Basic row lemmas -/

/-- A primer row always has exactly `VOXEL_ROW_SIZE` voxels. -/
theorem get_row_length (p : ChunkPrimer) (y z : Nat) :
    (p.get_row y z).length = VOXEL_ROW_SIZE := by
  simp [ChunkPrimer.get_row]

/-- The head of a primer row is its first voxel. -/
theorem get_row_head (p : ChunkPrimer) (y z : Nat) :
    (p.get_row y z).head? = some (rowFirst p y z) := by
  have h : (List.range VOXEL_ROW_SIZE).head? = some 0 := by decide
  simp [ChunkPrimer.get_row, List.head?_map, h, rowFirst]

/-- A row is the uniform template of material `m` exactly when every voxel
in it has material `m`. -/
theorem get_row_eq_replicate_iff (p : ChunkPrimer) (y z m : Nat) :
    p.get_row y z = List.replicate VOXEL_ROW_SIZE ⟨m⟩ ↔
      ∀ v ∈ p.get_row y z, v.material = m := by
  constructor
  · intro h v hv
    rw [h] at hv
    rw [List.eq_of_mem_replicate hv]
  · intro h
    rw [List.eq_replicate_iff]
    refine ⟨get_row_length p y z, fun v hv => ?_⟩
    have := h v hv
    cases v
    simpa using this

/-! ## Counting and slicing lemmas for the specification helpers -/

/-- Unfolding of `specData` over a cons cell. -/
theorem specData_cons (p : ChunkPrimer) (a : Nat × Nat) (L : List (Nat × Nat)) :
    specData p (a :: L) =
      (if row_is_packed p a.2 a.1 then [] else p.get_row a.2 a.1) ++ specData p L := by
  rw [specData, specData, List.filter_cons]
  by_cases hp : row_is_packed p a.2 a.1 <;> simp [hp]

/-- Unfolding of `allocCount` over a cons cell. -/
theorem allocCount_cons (p : ChunkPrimer) (a : Nat × Nat) (L : List (Nat × Nat)) :
    allocCount p (a :: L) =
      (if row_is_packed p a.2 a.1 then 0 else 1) + allocCount p L := by
  rw [allocCount, allocCount, List.filter_cons]
  by_cases hp : row_is_packed p a.2 a.1
  · simp [hp]
  · simp [hp]
    omega

/-- `allocCount` adds over append. -/
theorem allocCount_append (p : ChunkPrimer) (l1 l2 : List (Nat × Nat)) :
    allocCount p (l1 ++ l2) = allocCount p l1 + allocCount p l2 := by
  simp [allocCount, List.filter_append]

/-- The amount of row data is the row size times the number of non-packed
rows. -/
theorem specData_length (p : ChunkPrimer) (L : List (Nat × Nat)) :
    (specData p L).length = VOXEL_ROW_SIZE * allocCount p L := by
  induction L with
  | nil => simp [specData, allocCount]
  | cons a rest ih =>
    rw [specData_cons, allocCount_cons]
    by_cases hp : row_is_packed p a.2 a.1
    · simp [hp, ih]
    · simp [hp, ih, get_row_length]
      ring

/-- The number of entries equals the number of rows processed. -/
theorem specEntries_length (p : ChunkPrimer) (L : List (Nat × Nat)) :
    ∀ len, (specEntries p L len).length = L.length := by
  induction L with
  | nil => intro len; simp [specEntries]
  | cons a rest ih => intro len; rw [specEntries]; simp [ih]

/-- The entry recorded for row `i` of the iteration: the row data length
at processing time is the row size times the number of earlier non-packed
rows. -/
theorem specEntries_get (p : ChunkPrimer) (L : List (Nat × Nat)) :
    ∀ (len i : Nat) (zy : Nat × Nat), L.get? i = some zy →
      (specEntries p L len).get? i =
        some (specEntry p (len + VOXEL_ROW_SIZE * allocCount p (L.take i)) zy) := by
  induction L with
  | nil => intro len i zy h; simp at h
  | cons a rest ih =>
    intro len i zy h
    cases i with
    | zero =>
      rw [List.get?] at h
      injection h with h
      subst h
      simp [specEntries, allocCount]
    | succ n =>
      rw [List.get?] at h
      rw [specEntries]
      have hstep := ih (if row_is_packed p a.2 a.1 then len else len + VOXEL_ROW_SIZE) n zy h
      rw [List.get?_cons_succ, hstep]
      rw [List.take_succ_cons, allocCount_cons]
      congr 2
      by_cases hp : row_is_packed p a.2 a.1
      · rw [if_pos hp, if_pos hp]
        ring
      · rw [if_neg hp, if_neg hp]
        ring

/-- Copy of the row stored for a non-packed row `i`: the slice of the
specified row data at its offset is exactly the primer row. -/
theorem specData_segment (p : ChunkPrimer) (L : List (Nat × Nat)) :
    ∀ (i : Nat) (zy : Nat × Nat), L.get? i = some zy →
      row_is_packed p zy.2 zy.1 = false →
      ((specData p L).drop (VOXEL_ROW_SIZE * allocCount p (L.take i))).take VOXEL_ROW_SIZE =
        p.get_row zy.2 zy.1 := by
  induction L with
  | nil => intro i zy h; simp at h
  | cons a rest ih =>
    intro i zy h hnp
    cases i with
    | zero =>
      rw [List.get?] at h
      injection h with h
      subst h
      rw [specData_cons, if_neg (by simp [hnp])]
      simp only [List.take_zero, allocCount, List.filter_nil, List.length_nil,
        Nat.mul_zero, List.drop_zero]
      rw [List.take_append_of_le_length (by rw [get_row_length])]
      exact List.take_of_length_le (by rw [get_row_length])
    | succ n =>
      rw [List.get?] at h
      rw [specData_cons, List.take_succ_cons, allocCount_cons]
      by_cases hp : row_is_packed p a.2 a.1
      · simp only [hp, if_true, if_pos]
        simpa using ih n zy h hnp
      · simp only [hp, if_false, if_neg, Bool.false_eq_true, not_false_iff]
        have harith : VOXEL_ROW_SIZE * (1 + allocCount p (rest.take n)) =
            (p.get_row a.2 a.1).length + VOXEL_ROW_SIZE * allocCount p (rest.take n) := by
          rw [get_row_length]; ring
        rw [harith, ← List.drop_drop, List.drop_left]
        exact ih n zy h hnp

/-- Every prefix holds at most as many non-packed rows as the whole list. -/
theorem allocCount_take_le_self (p : ChunkPrimer) (l : List (Nat × Nat)) (i : Nat) :
    allocCount p (l.take i) ≤ allocCount p l := by
  conv_rhs => rw [← List.take_append_drop i l]
  rw [allocCount_append]
  omega

/-- The number of non-packed rows in a prefix is at most the prefix length. -/
theorem allocCount_take_le (p : ChunkPrimer) (l : List (Nat × Nat)) (i : Nat) :
    allocCount p (l.take i) ≤ i := by
  calc allocCount p (l.take i) ≤ (l.take i).length := List.length_filter_le _ _
    _ ≤ i := List.length_take_le i l

/-- Appending element `i` to the prefix adds one non-packed row when that
element is non-packed. -/
theorem allocCount_take_succ (p : ChunkPrimer) (L : List (Nat × Nat)) (i : Nat)
    (zy : Nat × Nat) (h : L.get? i = some zy) :
    allocCount p (L.take (i + 1)) =
      allocCount p (L.take i) + (if row_is_packed p zy.2 zy.1 then 0 else 1) := by
  rw [List.get?_eq_getElem?] at h
  rw [List.take_succ, h]
  rw [allocCount_append]
  by_cases hp : row_is_packed p zy.2 zy.1 <;>
    simp [hp, allocCount, List.filter_cons]

/-- Prefix counts are monotone in the prefix length. -/
theorem allocCount_take_mono (p : ChunkPrimer) (L : List (Nat × Nat))
    {i j : Nat} (h : i ≤ j) :
    allocCount p (L.take i) ≤ allocCount p (L.take j) := by
  have heq : L.take i = (L.take j).take i := by
    rw [List.take_take, Nat.min_eq_left h]
  rw [heq]
  exact allocCount_take_le_self p (L.take j) i

/-- A non-packed row strictly increases the prefix count at its position. -/
theorem allocCount_take_lt (p : ChunkPrimer) (L : List (Nat × Nat)) (i : Nat)
    (zy : Nat × Nat) (h : L.get? i = some zy)
    (hnp : row_is_packed p zy.2 zy.1 = false) :
    allocCount p (L.take i) < allocCount p L := by
  have h1 := allocCount_take_succ p L i zy h
  rw [hnp] at h1
  have h2 : allocCount p (L.take (i + 1)) ≤ allocCount p L :=
    allocCount_take_le_self p L (i + 1)
  simp at h1
  omega

/-! ## Characterization of the encoder loop -/

/-- When a template exists for the first material of a row, packedness is
equality with that template. -/
theorem row_is_packed_of_template (p : ChunkPrimer) (y z : Nat)
    (h : (rowFirst p y z).material < M_COUNT) :
    row_is_packed p y z =
      decide (p.get_row y z = List.replicate VOXEL_ROW_SIZE ⟨(rowFirst p y z).material⟩) := by
  rw [row_is_packed, VOXEL_ROWS, if_pos h]

/-- A successful encoder run means every processed row had a template for
its first material. -/
theorem encodeRows_ok (p : ChunkPrimer) (L : List (Nat × Nat)) :
    ∀ rs rd out, encodeRows p L rs rd = some out →
      ∀ zy ∈ L, rowOk p zy.2 zy.1 = true := by
  induction L with
  | nil => intro rs rd out _ zy h; simp at h
  | cons a rest ih =>
    intro rs rd out h zy hmem
    obtain ⟨z, y⟩ := a
    simp only [encodeRows, get_row_head] at h
    cases hV : VOXEL_ROWS (rowFirst p y z).material with
    | none => simp only [hV] at h; exact absurd h (by simp)
    | some template =>
      simp only [hV] at h
      have hok : rowOk p y z = true := by
        rw [rowOk, decide_eq_true_iff]
        by_contra hc
        rw [VOXEL_ROWS, if_neg hc] at hV
        exact Option.noConfusion hV
      rcases List.mem_cons.1 hmem with rfl | hmem2
      · exact hok
      · revert h
        split
        · intro h; exact ih _ _ _ h zy hmem2
        · intro h; exact ih _ _ _ h zy hmem2

/-- A successful encoder run produces exactly the specified entries and
row data. -/
theorem encodeRows_spec (p : ChunkPrimer) (L : List (Nat × Nat)) :
    ∀ (rs : List Nat) (rd : List Voxel),
      (∀ zy ∈ L, rowOk p zy.2 zy.1 = true) →
      encodeRows p L rs rd =
        some (rs ++ specEntries p L rd.length, rd ++ specData p L) := by
  induction L with
  | nil => intro rs rd _; simp [encodeRows, specEntries, specData]
  | cons a rest ih =>
    intro rs rd h
    obtain ⟨z, y⟩ := a
    have hok : rowOk p y z = true := h (z, y) (List.mem_cons_self _ _)
    have hm : (rowFirst p y z).material < M_COUNT := by
      rw [rowOk, decide_eq_true_iff] at hok; exact hok
    have htemp : VOXEL_ROWS (rowFirst p y z).material =
        some (List.replicate VOXEL_ROW_SIZE ⟨(rowFirst p y z).material⟩) := by
      rw [VOXEL_ROWS, if_pos hm]
    have hrest : ∀ zy ∈ rest, rowOk p zy.2 zy.1 = true :=
      fun zy hzy => h zy (List.mem_cons_of_mem _ hzy)
    simp only [encodeRows, get_row_head, htemp]
    have hpacked := row_is_packed_of_template p y z hm
    by_cases hp : p.get_row y z = List.replicate VOXEL_ROW_SIZE ⟨(rowFirst p y z).material⟩
    · rw [if_pos hp, ih _ _ hrest]
      have hb : row_is_packed p y z = true := by rw [hpacked, decide_eq_true_iff]; exact hp
      rw [specEntries, specData_cons]
      simp [specEntry, hb]
    · rw [if_neg hp, ih _ _ hrest]
      have hb : row_is_packed p y z = false := by
        rw [hpacked, decide_eq_false_iff_not]; exact hp
      rw [specEntries, specData_cons]
      simp [specEntry, hb, get_row_length]

/-- The encoder succeeds on a field whose rows all have a template for
their first material. -/
theorem from_chunk_primer_spec (p : ChunkPrimer)
    (h : ∀ zy ∈ rowIndices, rowOk p zy.2 zy.1 = true) :
    Chunk.from_chunk_primer p =
      some ⟨specEntries p rowIndices 0, specData p rowIndices⟩ := by
  rw [Chunk.from_chunk_primer, encodeRows_spec p rowIndices [] [] h]
  simp

/-- A chunk produced by the encoder is the specified chunk, and every row
of the field had a template for its first material. -/
theorem from_chunk_primer_some (p : ChunkPrimer) (c : Chunk)
    (h : Chunk.from_chunk_primer p = some c) :
    (∀ zy ∈ rowIndices, rowOk p zy.2 zy.1 = true) ∧
      c = ⟨specEntries p rowIndices 0, specData p rowIndices⟩ := by
  have hok : ∀ zy ∈ rowIndices, rowOk p zy.2 zy.1 = true := by
    rw [Chunk.from_chunk_primer] at h
    cases henc : encodeRows p rowIndices [] [] with
    | none => rw [henc] at h; exact absurd h (by simp)
    | some out => exact encodeRows_ok p rowIndices [] [] out henc
  refine ⟨hok, ?_⟩
  have hspec := from_chunk_primer_spec p hok
  rw [h] at hspec
  exact Option.some.inj hspec

/-! ## The iteration order -/

set_option maxRecDepth 40000 in
/-- The iteration order as a map over row indices. -/
theorem rowIndices_eq :
    rowIndices = (List.range VOXEL_ROW_COUNT).map
      fun i => (i / VOXEL_ROW_SIZE, i % VOXEL_ROW_SIZE) := by
  decide

/-- Length of the iteration order. -/
theorem rowIndices_length : rowIndices.length = VOXEL_ROW_COUNT := by
  rw [rowIndices_eq, List.length_map, List.length_range]

/-- The pair stored at row index `z * VOXEL_ROW_SIZE + y`. -/
theorem rowIndices_get (y z : Nat) (hy : y < 32) (hz : z < 32) :
    rowIndices.get? (z * VOXEL_ROW_SIZE + y) = some (z, y) := by
  rw [rowIndices_eq, List.get?_eq_getElem?, List.getElem?_map]
  have hlt : z * VOXEL_ROW_SIZE + y < VOXEL_ROW_COUNT := by
    rw [VOXEL_ROW_SIZE, VOXEL_ROW_COUNT, VOXEL_ROW_SIZE]
    omega
  rw [List.getElem?_range hlt]
  rw [Option.map_some']
  have h1 : (z * VOXEL_ROW_SIZE + y) / VOXEL_ROW_SIZE = z := by
    rw [VOXEL_ROW_SIZE]
    omega
  have h2 : (z * VOXEL_ROW_SIZE + y) % VOXEL_ROW_SIZE = y := by
    rw [VOXEL_ROW_SIZE]
    omega
  rw [h1, h2]

/-- Membership in the iteration order is coordinate boundedness. -/
theorem mem_rowIndices (zy : Nat × Nat) :
    zy ∈ rowIndices ↔ zy.1 < 32 ∧ zy.2 < 32 := by
  obtain ⟨z, y⟩ := zy
  rw [rowIndices_eq]
  simp only [List.mem_map, List.mem_range, Prod.mk.injEq, VOXEL_ROW_COUNT, VOXEL_ROW_SIZE]
  constructor
  · rintro ⟨i, hi, h1, h2⟩
    norm_num at hi
    constructor <;> omega
  · rintro ⟨h1, h2⟩
    refine ⟨z * 32 + y, by norm_num; omega, by omega, by omega⟩

/-! ## The chunk row index produced by the encoder -/

/-- The first voxel of a row is a member of the row. -/
theorem rowFirst_mem (p : ChunkPrimer) (y z : Nat) :
    rowFirst p y z ∈ p.get_row y z := by
  rw [ChunkPrimer.get_row]
  refine List.mem_map.2 ⟨0, ?_, ?_⟩
  · rw [List.mem_range, VOXEL_ROW_SIZE]
    omega
  · rw [rowFirst, Nat.add_zero]

/-- The chunk row entry for `(y, z)` in a chunk produced by the encoder. -/
theorem chunk_rows_get (p : ChunkPrimer) (c : Chunk)
    (hc : Chunk.from_chunk_primer p = some c) (y z : Nat) (hy : y < 32) (hz : z < 32) :
    c.rows.get? (z * VOXEL_ROW_SIZE + y) =
      some (specEntry p (VOXEL_ROW_SIZE * allocBefore p (z * VOXEL_ROW_SIZE + y)) (z, y)) := by
  obtain ⟨hok, rfl⟩ := from_chunk_primer_some p c hc
  have h := specEntries_get p rowIndices 0 (z * VOXEL_ROW_SIZE + y) (z, y)
    (rowIndices_get y z hy hz)
  rw [Nat.zero_add] at h
  exact h

/-- The row data offset an allocated row receives stays below `2 ^ 15`:
row index at most 1023, hence at most 1023 non-packed earlier rows. -/
theorem allocBefore_bound (p : ChunkPrimer) (y z : Nat) (hy : y < 32) (hz : z < 32) :
    VOXEL_ROW_SIZE * allocBefore p (z * VOXEL_ROW_SIZE + y) ≤ 32736 := by
  have h := allocCount_take_le p rowIndices (z * VOXEL_ROW_SIZE + y)
  rw [allocBefore]
  rw [VOXEL_ROW_SIZE] at *
  omega

/-- The entry of a packed row is its material, below `M_COUNT`. -/
theorem chunk_entry_packed (p : ChunkPrimer) (len y z : Nat)
    (hp : row_is_packed p y z = true) :
    specEntry p len (z, y) = (rowFirst p y z).material := by
  rw [specEntry]
  simp only [hp, if_true, if_pos]

/-- The entry of a non-packed row is its tagged offset. -/
theorem chunk_entry_alloc (p : ChunkPrimer) (len y z : Nat)
    (hp : row_is_packed p y z = false) :
    specEntry p len (z, y) = len % 65536 ||| ROW_TAG_ALLOCATED := by
  rw [specEntry]
  simp only [hp]
  rw [if_neg (by simp)]

/-- A packed row has a template material and equals its uniform row. -/
theorem row_is_packed_true_iff (p : ChunkPrimer) (y z : Nat)
    (hm : (rowFirst p y z).material < M_COUNT) :
    row_is_packed p y z = true ↔
      p.get_row y z = List.replicate VOXEL_ROW_SIZE ⟨(rowFirst p y z).material⟩ := by
  rw [row_is_packed_of_template p y z hm, decide_eq_true_iff]

/-! ## The all-air field -/

/-- Every row of the all-air field is the air row. -/
theorem air_row (y z : Nat) : airPrimer.get_row y z = List.replicate VOXEL_ROW_SIZE ⟨M_AIR⟩ := by
  rw [ChunkPrimer.get_row, List.eq_replicate_iff]
  refine ⟨by simp, ?_⟩
  intro b hb
  obtain ⟨x, _, rfl⟩ := List.mem_map.1 hb
  rfl

/-- The all-air field encodes without panicking. -/
theorem airPrimer_ok : ∀ zy ∈ rowIndices, rowOk airPrimer zy.2 zy.1 = true := by
  intro zy _
  rfl

/-- The encoder output on the all-air field. -/
theorem airChunk_eq : Chunk.from_chunk_primer airPrimer = some airChunk :=
  from_chunk_primer_spec airPrimer airPrimer_ok

/-! ## Claim theorems for the chunk codec -/

/-- C2: in a chunk the encoder builds, the row index entry at
`z * VOXEL_ROW_SIZE + y` has the tag bit clear (packed) exactly when all
32 voxels of the primer row carry one material that has a uniform-row
template (code below `M_COUNT`); in particular a row holding two distinct
materials is never packed. -/
theorem c2_packed_iff_uniform (p : ChunkPrimer) (c : Chunk)
    (hc : Chunk.from_chunk_primer p = some c) (y z : Nat) (hy : y < 32) (hz : z < 32) :
    ∃ r, c.rows.get? (z * VOXEL_ROW_SIZE + y) = some r ∧
      (r &&& ROW_TAG_ALLOCATED = 0 ↔
        ∃ m, m < M_COUNT ∧ ∀ v ∈ p.get_row y z, v.material = m) ∧
      (∀ v ∈ p.get_row y z, ∀ w ∈ p.get_row y z, v.material ≠ w.material →
        r &&& ROW_TAG_ALLOCATED ≠ 0) := by
  have hok : (rowFirst p y z).material < M_COUNT := by
    have h0 := (from_chunk_primer_some p c hc).1 (z, y)
      ((mem_rowIndices (z, y)).2 ⟨hz, hy⟩)
    rw [rowOk, decide_eq_true_iff] at h0
    exact h0
  refine ⟨_, chunk_rows_get p c hc y z hy hz, ?_, ?_⟩
  · cases hp : row_is_packed p y z with
    | true =>
      rw [chunk_entry_packed p _ y z hp]
      have htag : (rowFirst p y z).material &&& ROW_TAG_ALLOCATED = 0 :=
        land_tag_of_lt (by rw [M_COUNT] at hok; omega)
      rw [htag]
      constructor
      · intro _
        refine ⟨(rowFirst p y z).material, hok, ?_⟩
        rw [← get_row_eq_replicate_iff]
        exact (row_is_packed_true_iff p y z hok).1 hp
      · intro _
        rfl
    | false =>
      rw [chunk_entry_alloc p _ y z hp]
      have hb := allocBefore_bound p y z hy hz
      have hmod : VOXEL_ROW_SIZE * allocBefore p (z * VOXEL_ROW_SIZE + y) % 65536 =
          VOXEL_ROW_SIZE * allocBefore p (z * VOXEL_ROW_SIZE + y) :=
        Nat.mod_eq_of_lt (by omega)
      rw [hmod]
      have htag := land_tag_of_tagged
        (show VOXEL_ROW_SIZE * allocBefore p (z * VOXEL_ROW_SIZE + y) < 32768 by omega)
      constructor
      · intro h
        exact absurd h htag
      · rintro ⟨m, hm, hall⟩
        exfalso
        have hrow : p.get_row y z = List.replicate VOXEL_ROW_SIZE ⟨m⟩ :=
          (get_row_eq_replicate_iff p y z m).2 hall
        have hfm : (rowFirst p y z).material = m := hall _ (rowFirst_mem p y z)
        have : row_is_packed p y z = true := by
          rw [row_is_packed_true_iff p y z hok, hfm]
          exact hrow
        rw [hp] at this
        exact Bool.noConfusion this
  · intro v hv w hw hne
    cases hp : row_is_packed p y z with
    | true =>
      exfalso
      have hrow := (row_is_packed_true_iff p y z hok).1 hp
      rw [get_row_eq_replicate_iff] at hrow
      exact hne ((hrow v hv).trans (hrow w hw).symm)
    | false =>
      rw [chunk_entry_alloc p _ y z hp]
      have hb := allocBefore_bound p y z hy hz
      have hmod : VOXEL_ROW_SIZE * allocBefore p (z * VOXEL_ROW_SIZE + y) % 65536 =
          VOXEL_ROW_SIZE * allocBefore p (z * VOXEL_ROW_SIZE + y) :=
        Nat.mod_eq_of_lt (by omega)
      rw [hmod]
      exact land_tag_of_tagged (by omega)

/-- Witness for C2: the all-air field at row `(y = 0, z = 0)`. -/
theorem c2_packed_iff_uniform_witness :
    ∃ r, airChunk.rows.get? (0 * VOXEL_ROW_SIZE + 0) = some r ∧
      (r &&& ROW_TAG_ALLOCATED = 0 ↔
        ∃ m, m < M_COUNT ∧ ∀ v ∈ airPrimer.get_row 0 0, v.material = m) ∧
      (∀ v ∈ airPrimer.get_row 0 0, ∀ w ∈ airPrimer.get_row 0 0, v.material ≠ w.material →
        r &&& ROW_TAG_ALLOCATED ≠ 0) :=
  c2_packed_iff_uniform airPrimer airChunk airChunk_eq 0 0 (by omega) (by omega)

/-- The masked offset of a non-packed row of an encoded chunk. -/
theorem chunk_alloc_offset (p : ChunkPrimer) (c : Chunk)
    (hc : Chunk.from_chunk_primer p = some c) (y z : Nat) (hy : y < 32) (hz : z < 32)
    (hnp : row_is_packed p y z = false) :
    c.rows.get? (z * VOXEL_ROW_SIZE + y) =
        some ((VOXEL_ROW_SIZE * allocBefore p (z * VOXEL_ROW_SIZE + y)) |||
          ROW_TAG_ALLOCATED) ∧
      ((VOXEL_ROW_SIZE * allocBefore p (z * VOXEL_ROW_SIZE + y)) ||| ROW_TAG_ALLOCATED)
          &&& ROW_TAG_MASK = VOXEL_ROW_SIZE * allocBefore p (z * VOXEL_ROW_SIZE + y) := by
  have hb := allocBefore_bound p y z hy hz
  have hmod : VOXEL_ROW_SIZE * allocBefore p (z * VOXEL_ROW_SIZE + y) % 65536 =
      VOXEL_ROW_SIZE * allocBefore p (z * VOXEL_ROW_SIZE + y) :=
    Nat.mod_eq_of_lt (by omega)
  constructor
  · rw [chunk_rows_get p c hc y z hy hz, chunk_entry_alloc p _ y z hnp, hmod]
  · exact mask_of_tagged (by omega)

/-- C6: after encoding, `row_data` holds exactly `VOXEL_ROW_SIZE` voxels
per non-uniform row; each non-packed row occupies its own block equal to
the primer row; and no two distinct non-packed rows share a masked offset. -/
theorem c6_storage_growth (p : ChunkPrimer) (c : Chunk)
    (hc : Chunk.from_chunk_primer p = some c) :
    c.row_data.length = VOXEL_ROW_SIZE * nonUniformCount p ∧
      (∀ y z, y < 32 → z < 32 → row_is_packed p y z = false →
        ∃ r, c.rows.get? (z * VOXEL_ROW_SIZE + y) = some r ∧
          (r &&& ROW_TAG_MASK) + VOXEL_ROW_SIZE ≤ c.row_data.length ∧
          (c.row_data.drop (r &&& ROW_TAG_MASK)).take VOXEL_ROW_SIZE = p.get_row y z) ∧
      (∀ y z y2 z2, y < 32 → z < 32 → y2 < 32 → z2 < 32 →
        row_is_packed p y z = false → row_is_packed p y2 z2 = false →
        (z, y) ≠ (z2, y2) →
        ∀ r r2, c.rows.get? (z * VOXEL_ROW_SIZE + y) = some r →
          c.rows.get? (z2 * VOXEL_ROW_SIZE + y2) = some r2 →
          r &&& ROW_TAG_MASK ≠ r2 &&& ROW_TAG_MASK) := by
  have hdata : c.row_data = specData p rowIndices :=
    congrArg Chunk.row_data (from_chunk_primer_some p c hc).2
  refine ⟨?_, ?_, ?_⟩
  · rw [hdata, specData_length]
    rfl
  · intro y z hy hz hnp
    obtain ⟨hget, hmask⟩ := chunk_alloc_offset p c hc y z hy hz hnp
    refine ⟨_, hget, ?_, ?_⟩
    · rw [hmask, hdata, specData_length]
      have hlt := allocCount_take_lt p rowIndices (z * VOXEL_ROW_SIZE + y) (z, y)
        (rowIndices_get y z hy hz) (by simpa using hnp)
      rw [allocBefore]
      have h32 : (0 : Nat) < VOXEL_ROW_SIZE := by rw [VOXEL_ROW_SIZE]; omega
      calc VOXEL_ROW_SIZE * allocCount p (rowIndices.take (z * VOXEL_ROW_SIZE + y)) +
            VOXEL_ROW_SIZE
          = VOXEL_ROW_SIZE * (allocCount p (rowIndices.take (z * VOXEL_ROW_SIZE + y)) + 1) := by
            ring
        _ ≤ VOXEL_ROW_SIZE * allocCount p rowIndices :=
            Nat.mul_le_mul_left _ (by omega)
    · rw [hmask, hdata]
      have hseg := specData_segment p rowIndices (z * VOXEL_ROW_SIZE + y) (z, y)
        (rowIndices_get y z hy hz) (by simpa using hnp)
      rw [allocBefore]
      exact hseg
  · intro y z y2 z2 hy hz hy2 hz2 hnp hnp2 hne r r2 hr hr2
    obtain ⟨hget, hmask⟩ := chunk_alloc_offset p c hc y z hy hz hnp
    obtain ⟨hget2, hmask2⟩ := chunk_alloc_offset p c hc y2 z2 hy2 hz2 hnp2
    rw [hget] at hr
    rw [hget2] at hr2
    have hr' := Option.some.inj hr
    have hr2' := Option.some.inj hr2
    subst hr'
    subst hr2'
    rw [hmask, hmask2]
    have hij : z * VOXEL_ROW_SIZE + y ≠ z2 * VOXEL_ROW_SIZE + y2 := by
      intro h
      apply hne
      rw [VOXEL_ROW_SIZE] at h
      have hzz : z = z2 := by omega
      have hyy : y = y2 := by omega
      rw [hzz, hyy]
    have h32 : (0 : Nat) < VOXEL_ROW_SIZE := by rw [VOXEL_ROW_SIZE]; omega
    intro heq
    have hcount : allocBefore p (z * VOXEL_ROW_SIZE + y) =
        allocBefore p (z2 * VOXEL_ROW_SIZE + y2) := by
      have := Nat.eq_of_mul_eq_mul_left h32 heq
      exact this
    rcases Nat.lt_or_ge (z * VOXEL_ROW_SIZE + y) (z2 * VOXEL_ROW_SIZE + y2) with hlt | hge
    · have h1 := allocCount_take_succ p rowIndices (z * VOXEL_ROW_SIZE + y) (z, y)
        (rowIndices_get y z hy hz)
      rw [if_neg (by simp [hnp])] at h1
      have h2 := allocCount_take_mono p rowIndices
        (show z * VOXEL_ROW_SIZE + y + 1 ≤ z2 * VOXEL_ROW_SIZE + y2 by omega)
      rw [allocBefore, allocBefore] at hcount
      omega
    · have hlt2 : z2 * VOXEL_ROW_SIZE + y2 < z * VOXEL_ROW_SIZE + y := by omega
      have h1 := allocCount_take_succ p rowIndices (z2 * VOXEL_ROW_SIZE + y2) (z2, y2)
        (rowIndices_get y2 z2 hy2 hz2)
      rw [if_neg (by simp [hnp2])] at h1
      have h2 := allocCount_take_mono p rowIndices
        (show z2 * VOXEL_ROW_SIZE + y2 + 1 ≤ z * VOXEL_ROW_SIZE + y by omega)
      rw [allocBefore, allocBefore] at hcount
      omega

/-- Witness for C6: the all-air field. -/
theorem c6_storage_growth_witness :
    airChunk.row_data.length = VOXEL_ROW_SIZE * nonUniformCount airPrimer ∧
      (∀ y z, y < 32 → z < 32 → row_is_packed airPrimer y z = false →
        ∃ r, airChunk.rows.get? (z * VOXEL_ROW_SIZE + y) = some r ∧
          (r &&& ROW_TAG_MASK) + VOXEL_ROW_SIZE ≤ airChunk.row_data.length ∧
          (airChunk.row_data.drop (r &&& ROW_TAG_MASK)).take VOXEL_ROW_SIZE =
            airPrimer.get_row y z) ∧
      (∀ y z y2 z2, y < 32 → z < 32 → y2 < 32 → z2 < 32 →
        row_is_packed airPrimer y z = false → row_is_packed airPrimer y2 z2 = false →
        (z, y) ≠ (z2, y2) →
        ∀ r r2, airChunk.rows.get? (z * VOXEL_ROW_SIZE + y) = some r →
          airChunk.rows.get? (z2 * VOXEL_ROW_SIZE + y2) = some r2 →
          r &&& ROW_TAG_MASK ≠ r2 &&& ROW_TAG_MASK) :=
  c6_storage_growth airPrimer airChunk airChunk_eq

/-! ## The scenario field -/

/-- The first voxel of every scenario row is air: the stone voxel sits at
`x = 5`, never at `x = 0`. -/
theorem scenario_first (y z : Nat) (hy : y < 32) :
    rowFirst scenarioPrimer y z = ⟨M_AIR⟩ := by
  rw [rowFirst]
  have hne : ChunkPrimer.get_index 0 y z ≠ 69 := by
    rw [get_index_eq 0 y z (by omega) hy]
    omega
  unfold scenarioPrimer
  dsimp only
  rw [if_neg hne]

/-- The scenario field encodes without panicking. -/
theorem scenario_ok : ∀ zy ∈ rowIndices, rowOk scenarioPrimer zy.2 zy.1 = true := by
  intro zy hmem
  obtain ⟨z, y⟩ := zy
  rw [mem_rowIndices] at hmem
  rw [rowOk, decide_eq_true_iff, scenario_first y z hmem.2]
  decide

/-- Any scenario row other than `(y = 2, z = 0)` is all air. -/
theorem scenario_air_row (y z : Nat) (hy : y < 32) (hz : z < 32)
    (hne : ¬(z = 0 ∧ y = 2)) :
    scenarioPrimer.get_row y z = List.replicate VOXEL_ROW_SIZE ⟨M_AIR⟩ := by
  rw [ChunkPrimer.get_row, List.eq_replicate_iff]
  refine ⟨by simp, ?_⟩
  intro b hb
  obtain ⟨x, hx, rfl⟩ := List.mem_map.1 hb
  rw [List.mem_range, VOXEL_ROW_SIZE] at hx
  have hidx : ChunkPrimer.get_index 0 y z + x ≠ 69 := by
    rw [get_index_eq 0 y z (by omega) hy]
    omega
  unfold scenarioPrimer
  dsimp only
  rw [if_neg hidx]

/-- Any scenario row other than `(y = 2, z = 0)` is packed. -/
theorem scenario_packed (y z : Nat) (hy : y < 32) (hz : z < 32)
    (hne : ¬(z = 0 ∧ y = 2)) :
    row_is_packed scenarioPrimer y z = true := by
  have hm : (rowFirst scenarioPrimer y z).material < M_COUNT := by
    rw [scenario_first y z hy]
    decide
  rw [row_is_packed_true_iff scenarioPrimer y z hm, scenario_first y z hy]
  exact scenario_air_row y z hy hz hne

/-- The scenario row `(y = 2, z = 0)` read from the primer is the scenario
row literal. -/
theorem scenario_row_eq : scenarioPrimer.get_row 2 0 = scenarioRow := by
  rw [ChunkPrimer.get_row, scenarioRow]
  apply List.map_congr_left
  intro x hx
  have hidx : ChunkPrimer.get_index 0 2 0 = 64 := by decide
  rw [hidx]
  unfold scenarioPrimer
  dsimp only
  by_cases h5 : x = 5
  · rw [h5]
    norm_num
  · rw [if_neg (by omega), if_neg h5]

/-- The scenario row `(y = 2, z = 0)` is not packed. -/
theorem scenario_not_packed : row_is_packed scenarioPrimer 2 0 = false := by
  have hm : (rowFirst scenarioPrimer 2 0).material < M_COUNT := by
    rw [scenario_first 2 0 (by omega)]
    decide
  rw [Bool.eq_false_iff]
  intro hp
  have := (row_is_packed_true_iff scenarioPrimer 2 0 hm).1 hp
  rw [scenario_row_eq, scenario_first 2 0 (by omega)] at this
  exact absurd this (by decide)

set_option maxRecDepth 40000 in
/-- Exactly one row of the scenario field is non-packed. -/
theorem scenario_filter :
    (rowIndices.filter fun zy => !row_is_packed scenarioPrimer zy.2 zy.1) = [(0, 2)] := by
  have hcong : ∀ zy ∈ rowIndices,
      (!row_is_packed scenarioPrimer zy.2 zy.1) = decide (zy = ((0, 2) : Nat × Nat)) := by
    intro zy hmem
    obtain ⟨z, y⟩ := zy
    rw [mem_rowIndices] at hmem
    by_cases he : z = 0 ∧ y = 2
    · obtain ⟨hz0, hy2⟩ := he
      subst hz0
      subst hy2
      rw [scenario_not_packed]
      simp
    · rw [scenario_packed y z hmem.2 hmem.1 he]
      have : ((z, y) : Nat × Nat) ≠ (0, 2) := by
        intro hcontra
        apply he
        obtain ⟨h1, h2⟩ := Prod.mk.injEq .. ▸ hcontra
        exact ⟨h1, h2⟩
      simp [this]
  rw [List.filter_congr hcong]
  decide

/-- The scenario chunk stores exactly the scenario row in its row data. -/
theorem scenario_data : specData scenarioPrimer rowIndices = scenarioRow := by
  rw [specData, scenario_filter]
  simp only [List.flatMap_cons, List.flatMap_nil, List.append_nil]
  exact scenario_row_eq

/-- The encoder output on the scenario field. -/
theorem scenarioChunk_eq : Chunk.from_chunk_primer scenarioPrimer = some scenarioChunk :=
  from_chunk_primer_spec scenarioPrimer scenario_ok

/-- Row `(y = 2, z = 0)` of the scenario field receives offset zero. -/
theorem scenario_allocBefore : allocBefore scenarioPrimer 2 = 0 := by
  have htake : rowIndices.take 2 = [(0, 0), (0, 1)] := by decide
  rw [allocBefore, htake]
  have h0 : row_is_packed scenarioPrimer 0 0 = true :=
    scenario_packed 0 0 (by omega) (by omega) (by omega)
  have h1 : row_is_packed scenarioPrimer 1 0 = true :=
    scenario_packed 1 0 (by omega) (by omega) (by omega)
  rw [allocCount]
  simp [List.filter_cons, h0, h1]

/-- C9: every allocated row index entry of an encoded chunk stores an
offset equal to `row_data.len()` at append time, at most 32736, so the
tagged entry is the offset plus the tag bit, and masking with
`ROW_TAG_MASK` recovers exactly that offset. -/
theorem c9_offset_fits (p : ChunkPrimer) (c : Chunk)
    (hc : Chunk.from_chunk_primer p = some c) (y z : Nat)
    (hy : y < 32) (hz : z < 32) (hnp : row_is_packed p y z = false) :
    ∃ r off, c.rows.get? (z * VOXEL_ROW_SIZE + y) = some r ∧
      off = VOXEL_ROW_SIZE * allocBefore p (z * VOXEL_ROW_SIZE + y) ∧
      off ≤ 32736 ∧ r = off ||| ROW_TAG_ALLOCATED ∧ r &&& ROW_TAG_MASK = off := by
  obtain ⟨hget, hmask⟩ := chunk_alloc_offset p c hc y z hy hz hnp
  exact ⟨_, _, hget, rfl, allocBefore_bound p y z hy hz, rfl, hmask⟩

/-- Witness for C9: the non-uniform scenario row `(y = 2, z = 0)`. -/
theorem c9_offset_fits_witness :
    ∃ r off, scenarioChunk.rows.get? (0 * VOXEL_ROW_SIZE + 2) = some r ∧
      off = VOXEL_ROW_SIZE * allocBefore scenarioPrimer (0 * VOXEL_ROW_SIZE + 2) ∧
      off ≤ 32736 ∧ r = off ||| ROW_TAG_ALLOCATED ∧ r &&& ROW_TAG_MASK = off :=
  c9_offset_fits scenarioPrimer scenarioChunk scenarioChunk_eq 2 0 (by omega) (by omega)
    scenario_not_packed

/-- C10: on a chunk produced by the encoder, `read_row` never panics for
in-range coordinates: the row index lookup succeeds, a packed entry always
has a template, and an allocated slice `offset .. offset + 31` lies within
`row_data`. -/
theorem c10_read_row_no_panic (p : ChunkPrimer) (c : Chunk)
    (hc : Chunk.from_chunk_primer p = some c) (y z : Nat)
    (hy : y < 32) (hz : z < 32) :
    (c.read_row y z).isSome = true := by
  have hok : (rowFirst p y z).material < M_COUNT := by
    have h0 := (from_chunk_primer_some p c hc).1 (z, y)
      ((mem_rowIndices (z, y)).2 ⟨hz, hy⟩)
    rw [rowOk, decide_eq_true_iff] at h0
    exact h0
  rw [Chunk.read_row]
  cases hp : row_is_packed p y z with
  | true =>
    rw [chunk_rows_get p c hc y z hy hz, chunk_entry_packed p _ y z hp]
    have hlt : (rowFirst p y z).material < 32768 := by
      rw [M_COUNT] at hok
      omega
    have htag : (rowFirst p y z).material &&& ROW_TAG_ALLOCATED = 0 := land_tag_of_lt hlt
    have hmask : (rowFirst p y z).material &&& ROW_TAG_MASK =
        (rowFirst p y z).material := by
      rw [land_mask_eq_mod]
      omega
    simp only [htag, hmask, ne_eq, not_true_eq_false, if_false, reduceIte]
    rw [VOXEL_ROWS, if_pos hok]
    rfl
  | false =>
    obtain ⟨hget, hmask⟩ := chunk_alloc_offset p c hc y z hy hz hp
    rw [hget]
    have hb := allocBefore_bound p y z hy hz
    have htag := land_tag_of_tagged
      (show VOXEL_ROW_SIZE * allocBefore p (z * VOXEL_ROW_SIZE + y) < 32768 by omega)
    have hdata : c.row_data = specData p rowIndices :=
      congrArg Chunk.row_data (from_chunk_primer_some p c hc).2
    have hlen : VOXEL_ROW_SIZE * allocBefore p (z * VOXEL_ROW_SIZE + y) + VOXEL_ROW_SIZE ≤
        c.row_data.length := by
      rw [hdata, specData_length]
      have hlt := allocCount_take_lt p rowIndices (z * VOXEL_ROW_SIZE + y) (z, y)
        (rowIndices_get y z hy hz) (by simpa using hp)
      rw [allocBefore]
      calc VOXEL_ROW_SIZE * allocCount p (rowIndices.take (z * VOXEL_ROW_SIZE + y)) +
            VOXEL_ROW_SIZE
          = VOXEL_ROW_SIZE * (allocCount p (rowIndices.take (z * VOXEL_ROW_SIZE + y)) + 1) := by
            ring
        _ ≤ VOXEL_ROW_SIZE * allocCount p rowIndices :=
            Nat.mul_le_mul_left _ (by omega)
    simp only [hmask, htag, ne_eq, not_false_iff, if_true, reduceIte]
    rw [if_pos (by rw [VOXEL_ROW_SIZE] at hlen ⊢; omega)]
    rfl

/-- Witness for C10: the all-air field at `(y = 0, z = 0)`. -/
theorem c10_read_row_no_panic_witness :
    (airChunk.read_row 0 0).isSome = true :=
  c10_read_row_no_panic airPrimer airChunk airChunk_eq 0 0 (by omega) (by omega)

/-- C8: `read_row` takes the chunk by shared borrow; as a state-passing
operation a read leaves the chunk structurally unchanged, and a second
read of the same `(y, z)` returns an identical voxel sequence. -/
theorem c8_read_row_idempotent (c : Chunk) (y z : Nat) (hy : y < 32) (hz : z < 32) :
    (c.read_row_op y z).1 = ((c.read_row_op y z).2.read_row_op y z).1 ∧
      (c.read_row_op y z).2 = c :=
  ⟨rfl, rfl⟩

/-- Witness for C8: the all-air chunk at `(y = 0, z = 0)`. -/
theorem c8_read_row_idempotent_witness :
    (airChunk.read_row_op 0 0).1 = ((airChunk.read_row_op 0 0).2.read_row_op 0 0).1 ∧
      (airChunk.read_row_op 0 0).2 = airChunk :=
  c8_read_row_idempotent airChunk 0 0 (by omega) (by omega)

/-- C1 fails on the code as written: for the scenario field (all air
except stone at `(x = 5, y = 2, z = 0)`) the encoder succeeds and the
field row `(y = 2, z = 0)` has 32 voxels, but `read_row` returns only its
first `VOXEL_ROW_SIZE - 1 = 31` voxels, because the allocated branch reads
the slice `row_data[offset .. offset + VOXEL_ROW_SIZE - 1]`. The decoded
row is therefore not the field row, refuting the round trip. -/
theorem c1_round_trip_off_by_one :
    Chunk.from_chunk_primer scenarioPrimer = some scenarioChunk ∧
      scenarioPrimer.get_row 2 0 = scenarioRow ∧
      scenarioRow.length = VOXEL_ROW_SIZE ∧
      scenarioChunk.read_row 2 0 = some (scenarioRow.take (VOXEL_ROW_SIZE - 1)) ∧
      scenarioChunk.read_row 2 0 ≠ some (scenarioPrimer.get_row 2 0) := by
  have hget : scenarioChunk.rows.get? (0 * VOXEL_ROW_SIZE + 2) = some 32768 := by
    rw [chunk_rows_get scenarioPrimer scenarioChunk scenarioChunk_eq 2 0 (by omega) (by omega)]
    rw [chunk_entry_alloc scenarioPrimer _ 2 0 scenario_not_packed]
    rw [Nat.zero_mul, Nat.zero_add, scenario_allocBefore]
    rfl
  have hdata : scenarioChunk.row_data = scenarioRow := scenario_data
  have hread : scenarioChunk.read_row 2 0 = some (scenarioRow.take (VOXEL_ROW_SIZE - 1)) := by
    rw [Chunk.read_row, hget]
    have htag : (32768 &&& ROW_TAG_ALLOCATED) ≠ 0 := by decide
    have hoff : (32768 &&& ROW_TAG_MASK) = 0 := by decide
    simp only [hoff, htag, ne_eq, not_false_iff, if_true, reduceIte]
    rw [if_pos ?_]
    · rw [hdata, List.drop_zero]
    · rw [hdata]
      decide
  refine ⟨scenarioChunk_eq, scenario_row_eq, by decide, hread, ?_⟩
  rw [hread, scenario_row_eq]
  intro hcontra
  have := Option.some.inj hcontra
  have hlen := congrArg List.length this
  rw [List.length_take] at hlen
  revert hlen
  decide

/-! ## Round trips of the byte encodings -/

/-- Length of a fixed-width little-endian encoding. -/
theorem encLE_length (w n : Nat) : (encLE w n).length = w := by
  simp [encLE]

/-- Unfolding one byte of the little-endian encoding. -/
theorem encLE_succ (w n : Nat) : encLE (w + 1) n = n % 256 :: encLE w (n / 256) := by
  rw [encLE, List.range_succ_eq_map, List.map_cons]
  congr 1
  · norm_num
  · rw [List.map_map, encLE]
    apply List.map_congr_left
    intro i _
    simp only [Function.comp]
    congr 1
    rw [Nat.div_div_eq_div_mul]
    congr 1
    rw [Nat.pow_succ']

/-- The value of a fixed-width little-endian encoding. -/
theorem leVal_encLE (w : Nat) : ∀ n, leVal (encLE w n) = n % 256 ^ w := by
  induction w with
  | zero =>
    intro n
    simp [encLE, leVal]
    omega
  | succ w ih =>
    intro n
    rw [encLE_succ, leVal, List.foldr_cons]
    have hfold : (encLE w (n / 256)).foldr (fun byte acc => acc * 256 + byte) 0 =
        leVal (encLE w (n / 256)) := rfl
    rw [hfold, ih (n / 256), Nat.pow_succ', Nat.mod_mul]
    omega

/-- Taking exactly the length of a prefix returns the prefix. -/
theorem takeBytes_append (l r : List Nat) : takeBytes l.length (l ++ r) = some (l, r) := by
  induction l with
  | nil => rfl
  | cons x xs ih =>
    rw [List.length_cons, List.cons_append, takeBytes, ih]
    rfl

/-- Parsing a fixed-width little-endian value. -/
theorem parseLE_encLE (w n : Nat) (r : List Nat) (h : n < 256 ^ w) :
    parseLE w (encLE w n ++ r) = some (n, r) := by
  rw [parseLE]
  have ht : takeBytes w (encLE w n ++ r) = some (encLE w n, r) := by
    have := takeBytes_append (encLE w n) r
    rw [encLE_length] at this
    exact this
  rw [ht, Option.map_some']
  rw [leVal_encLE, Nat.mod_eq_of_lt h]

/-- Parsing an encoded `bool`. -/
theorem parseBool_encBool (b : Bool) (r : List Nat) :
    parseBool (encBool b ++ r) = some (b, r) := by
  cases b <;> rfl

/-- Parsing an encoded `i32` in range. -/
theorem parseI32_encI32 (x : Int) (r : List Nat)
    (h1 : -2 ^ 31 ≤ x) (h2 : x < 2 ^ 31) :
    parseI32 (encI32 x ++ r) = some (x, r) := by
  have hp31 : (2 : Int) ^ 31 = 2147483648 := by norm_num
  rw [hp31] at h1 h2
  rw [encI32, parseI32]
  have h0 : (0 : Int) ≤ x % 2 ^ 32 := Int.emod_nonneg x (by norm_num)
  have hm : x % 2 ^ 32 < 2 ^ 32 := Int.emod_lt_of_pos x (by norm_num)
  norm_num at h0 hm
  have hlt : (x % (2 ^ 32 : Int)).toNat < 256 ^ 4 := by
    norm_num
    omega
  rw [parseLE_encLE _ _ r hlt, Option.map_some']
  congr 1
  norm_num
  split
  · omega
  · omega

/-- Parsing a sequence of encoded values. -/
theorem parseN_flatten {α : Type} (p : List Nat → Option (α × List Nat))
    (enc : α → List Nat) (xs : List α)
    (h : ∀ x ∈ xs, ∀ r, p (enc x ++ r) = some (x, r)) (rest : List Nat) :
    parseN p xs.length ((xs.map enc).flatten ++ rest) = some (xs, rest) := by
  induction xs with
  | nil => rfl
  | cons x tail ih =>
    rw [List.length_cons, List.map_cons, List.flatten_cons, List.append_assoc, parseN]
    simp only [h x (List.mem_cons_self _ _)]
    simp only [ih (fun a ha r => h a (List.mem_cons_of_mem _ ha) r)]

/-- Parsing an encoded button state. -/
theorem parseGameButtonState_enc (b : GameButtonState) (r : List Nat) (hwf : b.wf) :
    parseGameButtonState (encGameButtonState b ++ r) = some (b, r) := by
  have hcnt : b.half_transition_count < 256 ^ 8 := by
    have h : b.half_transition_count < 2 ^ 64 := hwf
    norm_num at h ⊢
    omega
  rw [encGameButtonState, parseGameButtonState, List.append_assoc]
  simp only [parseBool_encBool]
  simp only [parseLE_encLE 8 b.half_transition_count r hcnt]

/-- Parsing an encoded controller input. -/
theorem parseControllerInput_enc (c : ControllerInput) (r : List Nat) (hwf : c.wf) :
    parseControllerInput (encControllerInput c ++ r) = some (c, r) := by
  obtain ⟨h1, h2, h3, h4⟩ := hwf
  rw [encControllerInput, parseControllerInput]
  rw [List.append_assoc, List.append_assoc, List.append_assoc]
  simp only [parseGameButtonState_enc _ _ h1, parseGameButtonState_enc _ _ h2,
    parseGameButtonState_enc _ _ h3, parseGameButtonState_enc _ _ h4]

/-- Parsing an encoded game input. -/
theorem parseGameInput_enc (g : GameInput) (r : List Nat) (hwf : g.wf) :
    parseGameInput (serializeGameInput g ++ r) = some (g, r) := by
  obtain ⟨hlen, hall⟩ := hwf
  rw [serializeGameInput, parseGameInput, List.append_assoc]
  simp only [parseLE_encLE 8 g.controllers.length
    ((g.controllers.map encControllerInput).flatten ++ r)
    (by rw [hlen, CONTROLLER_COUNT]; norm_num)]
  simp only [parseN_flatten parseControllerInput encControllerInput g.controllers
    (fun c hc r2 => parseControllerInput_enc c r2 (hall c hc)) r]

/-- Deserializing a serialized game input recovers it. -/
theorem deserialize_serialize_input (g : GameInput) (hwf : g.wf) :
    deserializeGameInput (serializeGameInput g) = some g := by
  rw [deserializeGameInput]
  have h := parseGameInput_enc g [] hwf
  rw [List.append_nil] at h
  rw [h, Option.map_some']

/-- Parsing an encoded voxel. -/
theorem parseVoxel_enc (v : Voxel) (r : List Nat) (h : v.material < 2 ^ 8) :
    parseVoxel (encLE 1 v.material ++ r) = some (v, r) := by
  rw [parseVoxel]
  rw [parseLE_encLE 1 v.material r (by norm_num at h ⊢; omega)]
  rw [Option.map_some']

/-- Parsing the encoded rows array of a well-formed chunk. -/
theorem parseRows_enc (c : Chunk) (r : List Nat) (hwf : c.wf) :
    parseRows (encLE 8 c.rows.length ++ ((c.rows.map (encLE 2)).flatten ++ r)) =
      some (c.rows, r) := by
  obtain ⟨hlen, hvals, _, _⟩ := hwf
  rw [parseRows]
  simp only [parseLE_encLE 8 c.rows.length ((c.rows.map (encLE 2)).flatten ++ r)
    (by rw [hlen, VOXEL_ROW_COUNT, VOXEL_ROW_SIZE]; norm_num)]
  simp only [parseN_flatten (parseLE 2) (encLE 2) c.rows
    (fun v hv r2 => parseLE_encLE 2 v r2 (by have := hvals v hv; norm_num at this ⊢; omega)) r]
  rw [if_pos hlen]

/-- Parsing an encoded well-formed chunk. -/
theorem parseChunk_enc (c : Chunk) (r : List Nat) (hwf : c.wf) :
    parseChunk (serializeChunk c ++ r) = some (c, r) := by
  have hwf2 := hwf
  obtain ⟨hlen, hvals, hmats, hdlen⟩ := hwf2
  rw [serializeChunk, parseChunk]
  simp only [List.append_assoc]
  simp only [parseRows_enc c _ hwf]
  simp only [parseLE_encLE 8 c.row_data.length
    ((c.row_data.map fun v => encLE 1 v.material).flatten ++ r)
    (by norm_num at hdlen ⊢; omega)]
  simp only [parseN_flatten parseVoxel (fun v => encLE 1 v.material) c.row_data
    (fun v hv r2 => parseVoxel_enc v r2 (hmats v hv)) r]

/-- Parsing an encoded well-formed game state. -/
theorem parseGame_enc (g : Game) (r : List Nat) (hwf : g.wf) :
    parseGame (serializeGame g ++ r) = some (g, r) := by
  obtain ⟨hc, hx1, hx2, hy1, hy2⟩ := hwf
  rw [serializeGame, parseGame]
  simp only [List.append_assoc]
  simp only [parseChunk_enc g.chunk (encI32 g.x_offset ++ (encI32 g.y_offset ++ r)) hc]
  simp only [parseI32_encI32 g.x_offset _ hx1 hx2]
  simp only [parseI32_encI32 g.y_offset _ hy1 hy2]

/-- Deserializing a serialized well-formed game state recovers it. -/
theorem deserialize_serialize_game (g : Game) (hwf : g.wf) :
    deserializeGame (serializeGame g) = some g := by
  rw [deserializeGame]
  have h := parseGame_enc g [] hwf
  rw [List.append_nil] at h
  rw [h, Option.map_some']

/-! ## Sizes of the input encoding -/

/-- A flattened map of constant-size encodings. -/
theorem length_flatten_map {α : Type} (f : α → List Nat) (k : Nat)
    (l : List α) (h : ∀ a ∈ l, (f a).length = k) :
    (l.map f).flatten.length = k * l.length := by
  induction l with
  | nil => simp
  | cons a rest ih =>
    simp only [List.map_cons, List.flatten_cons, List.length_append, List.length_cons]
    rw [h a (List.mem_cons_self _ _), ih (fun b hb => h b (List.mem_cons_of_mem _ hb))]
    ring

/-- A button state always encodes to 9 bytes. -/
theorem encGameButtonState_length (b : GameButtonState) :
    (encGameButtonState b).length = 9 := by
  rw [encGameButtonState, List.length_append, encLE_length, encBool]
  rfl

/-- A controller input always encodes to 36 bytes. -/
theorem encControllerInput_length (c : ControllerInput) :
    (encControllerInput c).length = 36 := by
  rw [encControllerInput]
  simp only [List.length_append, encGameButtonState_length]

/-- A game input with the canonical controller count always encodes to
`BINCODED_GAME_INPUT_SIZE` bytes. -/
theorem serializeGameInput_length (g : GameInput)
    (h : g.controllers.length = CONTROLLER_COUNT) :
    (serializeGameInput g).length = BINCODED_GAME_INPUT_SIZE := by
  rw [serializeGameInput, List.length_append, encLE_length,
    length_flatten_map encControllerInput 36 g.controllers
      (fun c _ => encControllerInput_length c),
    h, CONTROLLER_COUNT, BINCODED_GAME_INPUT_SIZE]

/-- The byte length of a recorded stream of canonical inputs. -/
theorem stream_length (inputs : List GameInput) (hwf : ∀ i ∈ inputs, i.wf) :
    ((inputs.map serializeGameInput).flatten).length =
      BINCODED_GAME_INPUT_SIZE * inputs.length :=
  length_flatten_map serializeGameInput BINCODED_GAME_INPUT_SIZE inputs
    (fun i hi => serializeGameInput_length i (hwf i hi).1)

/-- C4: a game input with the canonical controller count serializes to
exactly `BINCODED_GAME_INPUT_SIZE` (44) bytes, independently of the
`ended_down` and `half_transition_count` values of its button states;
this is the constant the source asserts at startup against a serialized
fresh default input. -/
theorem c4_fixed_input_size (g : GameInput)
    (h : g.controllers.length = CONTROLLER_COUNT) :
    (serializeGameInput g).length = BINCODED_GAME_INPUT_SIZE := by
  rw [serializeGameInput, List.length_append, encLE_length,
    length_flatten_map encControllerInput 36 g.controllers
      (fun c _ => encControllerInput_length c),
    h, CONTROLLER_COUNT, BINCODED_GAME_INPUT_SIZE]

/-- Witness for C4: the startup default input (all buttons up, zero
counts) and the boundary input (all buttons down, nonzero counts). -/
theorem c4_fixed_input_size_witness :
    ((GameInput.new CONTROLLER_COUNT).controllers.length = CONTROLLER_COUNT ∧
      (serializeGameInput (GameInput.new CONTROLLER_COUNT)).length =
        BINCODED_GAME_INPUT_SIZE) ∧
    (pressedInput.controllers.length = CONTROLLER_COUNT ∧
      (serializeGameInput pressedInput).length = BINCODED_GAME_INPUT_SIZE) :=
  ⟨⟨rfl, c4_fixed_input_size (GameInput.new CONTROLLER_COUNT) rfl⟩,
    ⟨rfl, c4_fixed_input_size pressedInput rfl⟩⟩

/-! ## The replay pipeline -/

/-- Recording a list of inputs appends their serializations in order. -/
theorem record_inputs_spec (inputs : List GameInput) :
    ∀ (env : ReplayEnv) (s : MState) (data : List Nat),
      s.recording_file = some () → env.recording = some data →
      record_inputs env s inputs =
        some { env with
          recording := some (data ++ (inputs.map serializeGameInput).flatten) } := by
  induction inputs with
  | nil =>
    intro env s data hf hr
    rw [record_inputs]
    cases env with
    | mk rec snap =>
      simp only at hr
      rw [hr]
      simp
  | cons i rest ih =>
    intro env s data hf hr
    rw [record_inputs, record_input]
    simp only [hf, hr]
    rw [ih { env with recording := some (data ++ serializeGameInput i) } s
      (data ++ serializeGameInput i) hf rfl]
    simp only [List.map_cons, List.flatten_cons, List.append_assoc]

/-- Playing back the remaining records of a stream, starting at the end of
a processed prefix, returns exactly the recorded inputs and only advances
the stream position. -/
theorem playback_inputs_spec (inputs : List GameInput) (hwf : ∀ i ∈ inputs, i.wf)
    (env : ReplayEnv) :
    ∀ (s : MState) (pre : List Nat) (inp0 : GameInput),
      env.recording = some (pre ++ (inputs.map serializeGameInput).flatten) →
      s.playback_file = some pre.length →
      playback_inputs env inputs.length s inp0 =
        some (.ok
          ({ s with
              playback_file :=
                some (pre.length + BINCODED_GAME_INPUT_SIZE * inputs.length) },
            inputs)) := by
  induction inputs with
  | nil =>
    intro s pre inp0 hr hpos
    rw [List.length_nil, playback_inputs]
    cases s with
    | mk g rf ri pf pi =>
      simp only at hpos
      rw [hpos]
      simp
  | cons i rest ih =>
    intro s pre inp0 hr hpos
    have hwf1 : i.wf := hwf i (List.mem_cons_self _ _)
    have hwfr : ∀ j ∈ rest, j.wf := fun j hj => hwf j (List.mem_cons_of_mem _ hj)
    have hser : (serializeGameInput i).length = BINCODED_GAME_INPUT_SIZE :=
      serializeGameInput_length i hwf1.1
    rw [List.length_cons, playback_inputs, playback_input]
    simp only [hpos, hr]
    have hflat : ((i :: rest).map serializeGameInput).flatten =
        serializeGameInput i ++ (rest.map serializeGameInput).flatten := by
      rw [List.map_cons, List.flatten_cons]
    rw [hflat]
    have hcond : pre.length + BINCODED_GAME_INPUT_SIZE ≤
        (pre ++ (serializeGameInput i ++ (rest.map serializeGameInput).flatten)).length := by
      simp only [List.length_append, hser]
      omega
    rw [if_pos hcond]
    have hdrop : (pre ++ (serializeGameInput i ++
        (rest.map serializeGameInput).flatten)).drop pre.length =
        serializeGameInput i ++ (rest.map serializeGameInput).flatten :=
      List.drop_left pre _
    rw [hdrop]
    have htake : (serializeGameInput i ++
        (rest.map serializeGameInput).flatten).take BINCODED_GAME_INPUT_SIZE =
        serializeGameInput i :=
      List.take_left' hser
    rw [htake]
    simp only [deserialize_serialize_input i hwf1]
    have hpre2 : (pre ++ serializeGameInput i).length =
        pre.length + BINCODED_GAME_INPUT_SIZE := by
      rw [List.length_append, hser]
    have hih := ih hwfr { s with playback_file := some (pre.length + BINCODED_GAME_INPUT_SIZE) }
      (pre ++ serializeGameInput i) i
      (by rw [hr, List.append_assoc, hflat])
      (by rw [hpre2])
    simp only [hih]
    rw [hpre2]
    have harith : pre.length + BINCODED_GAME_INPUT_SIZE +
        BINCODED_GAME_INPUT_SIZE * rest.length =
        pre.length + BINCODED_GAME_INPUT_SIZE * (rest.length + 1) := by
      ring
    rw [harith]

/-- Beginning playback with both files present and a decodable snapshot:
the stream reopens at position zero and the snapshot replaces the live
game state. -/
theorem begin_input_playback_spec (env : ReplayEnv) (s : MState) (idx : Nat)
    (data buf : List Nat) (g : Game)
    (hr : env.recording = some data) (hs : env.snapshot = some buf)
    (hg : deserializeGame buf = some g) :
    begin_input_playback env s idx =
      some (.ok { s with
        input_playback_index := some idx, playback_file := some 0, game := g }) := by
  rw [begin_input_playback]
  simp only [hr, hs, hg]

/-- One playback read at a record boundary with a full record remaining
returns that record and advances the position by one record. -/
theorem playback_input_read (env : ReplayEnv) (s : MState) (inp : GameInput)
    (pre : List Nat) (g : GameInput) (post : List Nat) (hwfg : g.wf)
    (hr : env.recording = some (pre ++ (serializeGameInput g ++ post)))
    (hpos : s.playback_file = some pre.length) :
    playback_input env s inp =
      some (.ok
        ({ s with playback_file := some (pre.length + BINCODED_GAME_INPUT_SIZE) }, g)) := by
  have hser : (serializeGameInput g).length = BINCODED_GAME_INPUT_SIZE :=
    serializeGameInput_length g hwfg.1
  rw [playback_input]
  simp only [hpos, hr]
  rw [if_pos (by simp only [List.length_append, hser]; omega)]
  rw [List.drop_left pre _]
  rw [List.take_left' hser]
  simp only [deserialize_serialize_input g hwfg]

/-- One playback read at the exact end of the stream does not error: it
closes and reopens the stream and reloads the snapshot, leaving the
caller input unchanged. -/
theorem playback_input_exhausted (env : ReplayEnv) (s : MState) (inp : GameInput)
    (data buf : List Nat) (idx : Nat) (g : Game)
    (hr : env.recording = some data)
    (hpos : s.playback_file = some data.length)
    (hidx : s.input_playback_index = some idx)
    (hs : env.snapshot = some buf)
    (hg : deserializeGame buf = some g) :
    playback_input env s inp =
      some (.ok ({ end_input_playback s with
        input_playback_index := some idx, playback_file := some 0, game := g }, inp)) := by
  rw [playback_input]
  simp only [hpos, hr]
  rw [if_neg (by rw [BINCODED_GAME_INPUT_SIZE]; omega)]
  simp only [hidx]
  rw [begin_input_playback_spec env (end_input_playback s) idx data buf g hr hs hg]

/-! ## Claim theorems for the replay subsystem -/

/-- C5: recording a sequence of canonical inputs on a fresh recording
stream and playing the stream back from the start yields exactly the
recorded inputs, field for field, in order. -/
theorem c5_replay_determinism (env0 : ReplayEnv) (s0 : MState) (inputs : List GameInput)
    (inp0 : GameInput) (hwf : ∀ i ∈ inputs, i.wf) (hg : s0.game.wf) :
    ∃ env1 s1 env2 s3 s4,
      begin_recording_input env0 s0 1 = (env1, s1) ∧
      record_inputs env1 s1 inputs = some env2 ∧
      begin_input_playback env2 (end_recording_input s1) 1 = some (.ok s3) ∧
      playback_inputs env2 inputs.length s3 inp0 = some (.ok (s4, inputs)) := by
  have h1 : begin_recording_input env0 s0 1 =
      ((begin_recording_input env0 s0 1).1, (begin_recording_input env0 s0 1).2) := rfl
  have h2 := record_inputs_spec inputs (begin_recording_input env0 s0 1).1
    (begin_recording_input env0 s0 1).2 [] rfl rfl
  have h3 := begin_input_playback_spec
    { (begin_recording_input env0 s0 1).1 with
      recording := some ([] ++ (inputs.map serializeGameInput).flatten) }
    (end_recording_input (begin_recording_input env0 s0 1).2) 1
    ([] ++ (inputs.map serializeGameInput).flatten) (serializeGame s0.game) s0.game
    rfl rfl (deserialize_serialize_game s0.game hg)
  have h4 := playback_inputs_spec inputs hwf
    { (begin_recording_input env0 s0 1).1 with
      recording := some ([] ++ (inputs.map serializeGameInput).flatten) }
    { end_recording_input (begin_recording_input env0 s0 1).2 with
      input_playback_index := some 1, playback_file := some 0, game := s0.game }
    [] inp0 rfl rfl
  exact ⟨_, _, _, _, _, h1, h2, h3, h4⟩

/-- C3: after recording `N` inputs and playing all of them back, the next
read does not error: it restarts the stream (position zero), reloads the
snapshot so the live game state equals the state saved at recording
start, leaves the caller input unchanged for that frame, and the read
after that returns the first recorded input. -/
theorem c3_loop_on_exhaustion (env0 : ReplayEnv) (s0 : MState) (i1 : GameInput)
    (rest : List GameInput) (inp0 inp1 inp2 : GameInput)
    (hwf : ∀ i ∈ i1 :: rest, i.wf) (hg : s0.game.wf) :
    ∃ env1 s1 env2 s3 s4 s5 s6,
      begin_recording_input env0 s0 1 = (env1, s1) ∧
      record_inputs env1 s1 (i1 :: rest) = some env2 ∧
      begin_input_playback env2 (end_recording_input s1) 1 = some (.ok s3) ∧
      playback_inputs env2 (i1 :: rest).length s3 inp0 = some (.ok (s4, i1 :: rest)) ∧
      playback_input env2 s4 inp1 = some (.ok (s5, inp1)) ∧
      s5.game = s0.game ∧ s5.playback_file = some 0 ∧
      playback_input env2 s5 inp2 = some (.ok (s6, i1)) := by
  have hwf1 : i1.wf := hwf i1 (List.mem_cons_self _ _)
  have h1 : begin_recording_input env0 s0 1 =
      ((begin_recording_input env0 s0 1).1, (begin_recording_input env0 s0 1).2) := rfl
  have h2 := record_inputs_spec (i1 :: rest) (begin_recording_input env0 s0 1).1
    (begin_recording_input env0 s0 1).2 [] rfl rfl
  have h3 := begin_input_playback_spec
    { (begin_recording_input env0 s0 1).1 with
      recording := some ([] ++ ((i1 :: rest).map serializeGameInput).flatten) }
    (end_recording_input (begin_recording_input env0 s0 1).2) 1
    ([] ++ ((i1 :: rest).map serializeGameInput).flatten) (serializeGame s0.game) s0.game
    rfl rfl (deserialize_serialize_game s0.game hg)
  have h4 := playback_inputs_spec (i1 :: rest) hwf
    { (begin_recording_input env0 s0 1).1 with
      recording := some ([] ++ ((i1 :: rest).map serializeGameInput).flatten) }
    { end_recording_input (begin_recording_input env0 s0 1).2 with
      input_playback_index := some 1, playback_file := some 0, game := s0.game }
    [] inp0 rfl rfl
  have h5 := playback_input_exhausted
    { (begin_recording_input env0 s0 1).1 with
      recording := some ([] ++ ((i1 :: rest).map serializeGameInput).flatten) }
    { { end_recording_input (begin_recording_input env0 s0 1).2 with
        input_playback_index := some 1, playback_file := some 0, game := s0.game } with
      playback_file :=
        some (([] : List Nat).length + BINCODED_GAME_INPUT_SIZE * (i1 :: rest).length) }
    inp1 ([] ++ ((i1 :: rest).map serializeGameInput).flatten) (serializeGame s0.game) 1
    s0.game rfl
    (by simp only [List.nil_append, List.length_nil, Nat.zero_add]
        rw [stream_length (i1 :: rest) hwf])
    rfl rfl (deserialize_serialize_game s0.game hg)
  have h8 := playback_input_read
    { (begin_recording_input env0 s0 1).1 with
      recording := some ([] ++ ((i1 :: rest).map serializeGameInput).flatten) }
    { end_input_playback
        { { end_recording_input (begin_recording_input env0 s0 1).2 with
            input_playback_index := some 1, playback_file := some 0, game := s0.game } with
          playback_file :=
            some (([] : List Nat).length +
              BINCODED_GAME_INPUT_SIZE * (i1 :: rest).length) } with
      input_playback_index := some 1, playback_file := some 0, game := s0.game }
    inp2 [] i1 ((rest.map serializeGameInput).flatten) hwf1
    (by simp only [List.map_cons, List.flatten_cons])
    rfl
  exact ⟨_, _, _, _, _, _, _, h1, h2, h3, h4, h5, rfl, rfl, h8⟩

/-- C7: beginning playback deserializes the snapshot back into the live
game state, replacing whatever was there: after beginning a recording
(which snapshots the current game state) and arbitrary in-memory changes
to the game, beginning playback restores the game state saved at
recording start; and beginning playback fails with an error when the
recording or the snapshot file is missing. -/
theorem c7_snapshot_restore :
    (∀ (env0 : ReplayEnv) (s0 : MState) (idx idx2 : Nat) (g2 : Game), s0.game.wf →
      ∃ s3, begin_input_playback (begin_recording_input env0 s0 idx).1
          { (begin_recording_input env0 s0 idx).2 with game := g2 } idx2 =
            some (.ok s3) ∧ s3.game = s0.game) ∧
    (∀ (env : ReplayEnv) (s : MState) (idx : Nat),
      env.recording = none ∨ env.snapshot = none →
      ∃ e, begin_input_playback env s idx = some (.error e)) := by
  constructor
  · intro env0 s0 idx idx2 g2 hg
    exact ⟨_, begin_input_playback_spec _ _ idx2 [] (serializeGame s0.game) s0.game rfl rfl
      (deserialize_serialize_game s0.game hg), rfl⟩
  · intro env s idx h
    rcases h with h | h
    · exact ⟨.notFound, by rw [begin_input_playback]; simp only [h]⟩
    · cases henv : env.recording with
      | none => exact ⟨.notFound, by rw [begin_input_playback]; simp only [henv]⟩
      | some data => exact ⟨.notFound, by rw [begin_input_playback]; simp only [henv, h]⟩

/-- The trivial game state is a representable Rust value. -/
theorem defaultGame_wf : defaultGame.wf := by
  refine ⟨⟨?_, ?_, ?_, ?_⟩, ?_, ?_, ?_, ?_⟩
  · rw [defaultGame]
    exact List.length_replicate _ _
  · intro r hr
    rw [defaultGame] at hr
    rw [List.eq_of_mem_replicate hr]
    norm_num
  · intro v hv
    rw [defaultGame] at hv
    exact absurd hv (List.not_mem_nil v)
  · rw [defaultGame]
    norm_num
  · norm_num [defaultGame]
  · norm_num [defaultGame]
  · norm_num [defaultGame]
  · norm_num [defaultGame]

/-- The fresh default input is a representable canonical Rust value. -/
theorem gameInputNew_wf : (GameInput.new CONTROLLER_COUNT).wf := by
  refine ⟨rfl, ?_⟩
  intro c hc
  rw [GameInput.new] at hc
  rw [List.eq_of_mem_replicate hc]
  exact ⟨by decide, by decide, by decide, by decide⟩

/-- Every member of the singleton default-input recording is well formed. -/
theorem singleInput_wf : ∀ i ∈ [GameInput.new CONTROLLER_COUNT], i.wf := by
  intro i hi
  rw [List.mem_singleton] at hi
  rw [hi]
  exact gameInputNew_wf

/-- Witness for C5: one recorded default input on the idle state. -/
theorem c5_replay_determinism_witness :
    ∃ env1 s1 env2 s3 s4,
      begin_recording_input emptyEnv idleState 1 = (env1, s1) ∧
      record_inputs env1 s1 [GameInput.new CONTROLLER_COUNT] = some env2 ∧
      begin_input_playback env2 (end_recording_input s1) 1 = some (.ok s3) ∧
      playback_inputs env2 [GameInput.new CONTROLLER_COUNT].length s3
          (GameInput.new CONTROLLER_COUNT) =
        some (.ok (s4, [GameInput.new CONTROLLER_COUNT])) :=
  c5_replay_determinism emptyEnv idleState [GameInput.new CONTROLLER_COUNT]
    (GameInput.new CONTROLLER_COUNT) singleInput_wf defaultGame_wf

/-- Witness for C3: one recorded default input, then a read past the end
with a distinct boundary input left unchanged. -/
theorem c3_loop_on_exhaustion_witness :
    ∃ env1 s1 env2 s3 s4 s5 s6,
      begin_recording_input emptyEnv idleState 1 = (env1, s1) ∧
      record_inputs env1 s1 [GameInput.new CONTROLLER_COUNT] = some env2 ∧
      begin_input_playback env2 (end_recording_input s1) 1 = some (.ok s3) ∧
      playback_inputs env2 [GameInput.new CONTROLLER_COUNT].length s3
          (GameInput.new CONTROLLER_COUNT) =
        some (.ok (s4, [GameInput.new CONTROLLER_COUNT])) ∧
      playback_input env2 s4 pressedInput = some (.ok (s5, pressedInput)) ∧
      s5.game = idleState.game ∧ s5.playback_file = some 0 ∧
      playback_input env2 s5 pressedInput =
        some (.ok (s6, GameInput.new CONTROLLER_COUNT)) :=
  c3_loop_on_exhaustion emptyEnv idleState (GameInput.new CONTROLLER_COUNT) []
    (GameInput.new CONTROLLER_COUNT) pressedInput pressedInput singleInput_wf defaultGame_wf

/-- Witness for C7: a recording begun on the idle state, the game then
replaced, and playback begun; and a playback begin on an environment with
no files. -/
theorem c7_snapshot_restore_witness :
    (∃ s3, begin_input_playback (begin_recording_input emptyEnv idleState 1).1
        { (begin_recording_input emptyEnv idleState 1).2 with
          game := Game.mk ⟨[], []⟩ 7 (-3) } 2 = some (.ok s3) ∧
      s3.game = idleState.game) ∧
    (∃ e, begin_input_playback emptyEnv idleState 1 = some (.error e)) :=
  ⟨c7_snapshot_restore.1 emptyEnv idleState 1 2 (Game.mk ⟨[], []⟩ 7 (-3)) defaultGame_wf,
    c7_snapshot_restore.2 emptyEnv idleState 1 (Or.inl rfl)⟩

end Colonize
